import Mathlib

/-!
# Verification of the bonc-ui SPN visualizer core

A shallow embedding of the SPN-visualizer logic of this repository:
the numeric list parser and permutation engine (`src/utils/spn.ts`),
the configuration validator and highlight correlator
(`src/routes/spn_visualizer.tsx`), the network model builder
(`src/components/SPNDiagram.tsx`) and the trace parser
(`src/routes/index.tsx`), together with theorems settling the
specification's claims about them.

Modelling conventions:
* JavaScript numbers are modelled as exact integers (`Int`); the source
  only ever computes with integral values on the claimed inputs, so IEEE
  rounding beyond 2^53 is not modelled.
* JavaScript strings are modelled as `List Char`.
* A function that can `throw` is modelled with `Except String`, carrying
  the thrown message.
* Writing `arr[i] = v` for `i` beyond the current length extends a JS
  array; such writes are observable only through out-of-range reads, which
  the source never performs, so they are modelled as no-ops (`List.set`
  is a no-op out of range).  A write at a negative index creates a plain
  property, invisible to all element reads, and is also a no-op.
-/

instance {ε α : Type} [DecidableEq ε] [DecidableEq α] : DecidableEq (Except ε α) :=
  fun x y =>
    match x, y with
    | .ok a, .ok b =>
      if h : a = b then .isTrue (by rw [h]) else .isFalse (by intro hc; cases hc; exact h rfl)
    | .error e, .error f =>
      if h : e = f then .isTrue (by rw [h]) else .isFalse (by intro hc; cases hc; exact h rfl)
    | .ok _, .error _ => .isFalse (by intro hc; cases hc)
    | .error _, .ok _ => .isFalse (by intro hc; cases hc)

/-- Code points matched by the JavaScript `\\s` class: ASCII whitespace,
the line terminators, and the Unicode space separators plus the BOM. -/
def jsWhitespaceCodes : List Nat :=
  [0x09, 0x0a, 0x0b, 0x0c, 0x0d, 0x20, 0xa0, 0x1680,
   0x2000, 0x2001, 0x2002, 0x2003, 0x2004, 0x2005, 0x2006, 0x2007,
   0x2008, 0x2009, 0x200a, 0x2028, 0x2029, 0x202f, 0x205f, 0x3000, 0xfeff]

/-- The character test behind the JS `\\s` class (also the set stripped by
`String.prototype.trim`). -/
def isJsWhitespace (c : Char) : Bool :=
  jsWhitespaceCodes.contains c.toNat


/-- JS `String.prototype.trim`: strip leading and trailing whitespace. -/
def trimChars (l : List Char) : List Char :=
  ((l.dropWhile isJsWhitespace).reverse.dropWhile isJsWhitespace).reverse

/-- Value of a decimal digit (`0`–`9`, code points 48–57), if `c` is one. -/
def decDigitVal (c : Char) : Option Nat :=
  if 48 ≤ c.toNat ∧ c.toNat ≤ 57 then some (c.toNat - 48) else none

/-- Value of a hexadecimal digit (`0`–`9`, `a`–`f` 97–102, `A`–`F` 65–70),
if `c` is one. -/
def hexDigitVal (c : Char) : Option Nat :=
  if 48 ≤ c.toNat ∧ c.toNat ≤ 57 then some (c.toNat - 48)
  else if 97 ≤ c.toNat ∧ c.toNat ≤ 102 then some (c.toNat - 97 + 10)
  else if 65 ≤ c.toNat ∧ c.toNat ≤ 70 then some (c.toNat - 65 + 10)
  else none

/-- Accumulate the value of a digit string in the given base. -/
def digitsVal (digitVal : Char → Option Nat) (base : Nat) (l : List Char) : Nat :=
  l.foldl (fun acc c => acc * base + (digitVal c).getD 0) 0

/-- JS `Number.parseInt(s, 10)`: skip leading whitespace, read an optional
sign, then the longest prefix of decimal digits; `NaN` (here `none`) if that
prefix is empty.  Characters after the digit prefix are ignored. -/
def jsParseIntDec (s : List Char) : Option Int :=
  let s₁ := s.dropWhile isJsWhitespace
  let (sign, s₂) : Int × List Char :=
    match s₁ with
    | '+' :: r => (1, r)
    | '-' :: r => (-1, r)
    | _ => (1, s₁)
  let digits := s₂.takeWhile (fun c => (decDigitVal c).isSome)
  if digits.isEmpty then none
  else some (sign * Int.ofNat (digitsVal decDigitVal 10 digits))

/-- JS `Number.parseInt(s, 0)`: as `jsParseIntDec`, but a `0x`/`0X` prefix
switches to base 16. -/
def jsParseIntAuto (s : List Char) : Option Int :=
  let s₁ := s.dropWhile isJsWhitespace
  let (sign, s₂) : Int × List Char :=
    match s₁ with
    | '+' :: r => (1, r)
    | '-' :: r => (-1, r)
    | _ => (1, s₁)
  match s₂ with
  | '0' :: 'x' :: rest =>
      let digits := rest.takeWhile (fun c => (hexDigitVal c).isSome)
      if digits.isEmpty then none
      else some (sign * Int.ofNat (digitsVal hexDigitVal 16 digits))
  | '0' :: 'X' :: rest =>
      let digits := rest.takeWhile (fun c => (hexDigitVal c).isSome)
      if digits.isEmpty then none
      else some (sign * Int.ofNat (digitsVal hexDigitVal 16 digits))
  | _ =>
      let digits := s₂.takeWhile (fun c => (decDigitVal c).isSome)
      if digits.isEmpty then none
      else some (sign * Int.ofNat (digitsVal decDigitVal 10 digits))

/-- Separator class of `parseNumberList`: the regex `[\s,;]`. -/
def isSepChar (c : Char) : Bool :=
  isJsWhitespace c || c == ',' || c == ';'

/-- `text.split(/[\s,;]+/)`: split on maximal runs of separator characters.
The boolean argument records whether we are inside a separator run (a run
already emitted the token before it). -/
def splitSepRuns : List Char → Bool → List Char → List (List Char)
  | [], skip, acc => if skip then [[]] else [acc.reverse]
  | c :: rest, skip, acc =>
    if isSepChar c then
      if skip then splitSepRuns rest true []
      else acc.reverse :: splitSepRuns rest true []
    else splitSepRuns rest false (c :: acc)

/-- The token list of `parseNumberList`: split on separator runs, trim each
token, drop empties (`.filter(Boolean)`). -/
def tokensOf (text : List Char) : List (List Char) :=
  ((splitSepRuns text false []).map trimChars).filter (fun t => ¬t.isEmpty)

/-- `parseNumberToken` from `src/utils/spn.ts`: lower-case the token, turn a
trailing `h` into a `0x` prefix, and parse with automatic base detection. -/
def parseNumberToken (token : List Char) : Except String Int :=
  if token.isEmpty then .error "Encountered empty numeric token"
  else
    let normalized := token.map Char.toLower
    let normalized :=
      if normalized.getLast? = some 'h' then '0' :: 'x' :: normalized.dropLast
      else normalized
    match jsParseIntAuto normalized with
    | none => .error ("Unable to parse number token \"" ++ String.mk token ++ "\"")
    | some v => .ok v

/-- `tokens.map(parseNumberToken)` with JS exception propagation: the first
failing token aborts the map. -/
def parseTokens : List (List Char) → Except String (List Int)
  | [] => .ok []
  | t :: ts => do
    let v ← parseNumberToken t
    let vs ← parseTokens ts
    .ok (v :: vs)

/-- `parseNumberList` from `src/utils/spn.ts`. -/
def parseNumberList (text : List Char) : Except String (List Int) :=
  parseTokens (tokensOf text)

example : parseNumberList "1, 2, 3".toList = .ok [1, 2, 3] := by decide
example : parseNumberList "Ah".toList = .ok [10] := by decide
example : parseNumberList "0xF, 2".toList = .ok [15, 2] := by decide
example : parseNumberList "1,,2".toList = .ok [1, 2] := by decide
example : parseNumberList "abc".toList =
    .error "Unable to parse number token \"abc\"" := by decide
example : parseNumberList "12abc".toList = .ok [12] := by decide

/-! ## Data model

`SPNConfig` and `RoundDefinition` mirror `src/types.ts` (the type
declarations themselves are not in the sources; the shapes are taken from
§3 of the design document and from every use site). -/

/-- One S-box of a round layout: `{ id, bitIndexes }`. -/
structure SBoxDef where
  id : String
  bitIndexes : List Int
  deriving DecidableEq, Repr

/-- One round of the layout: `{ name, sBoxes }`. -/
structure RoundDefinition where
  name : String
  sBoxes : List SBoxDef
  deriving DecidableEq, Repr

/-- The S-box description of a config: `{ size, table }`. -/
structure SBoxSpec where
  size : Int
  table : List Int
  deriving DecidableEq, Repr

/-- A connection style record (`stroke`, `strokeWidth`, `strokeDasharray`,
`opacity`), all fields optional. -/
structure ConnectionStyle where
  stroke : Option String := none
  strokeWidth : Option Int := none
  strokeDasharray : Option String := none
  opacity : Option Int := none
  deriving DecidableEq, Repr

/-- The `SPNConfig` record. `connectionStyles` is a string-keyed record,
modelled as an association list. -/
structure SPNConfig where
  blockSize : Int
  numberOfRounds : Int
  sBox : SBoxSpec
  pBox : List Int
  applyFinalPermutation : Bool
  rounds : Option (List RoundDefinition)
  connectionStyles : List (String × ConnectionStyle)
  deriving DecidableEq, Repr

/-! ## Permutation engine (`src/utils/spn.ts`) -/

/-- Perform a sequence of JS array element writes `init[k] = v`: a write at
a negative index is a no-op (it creates a non-element property), and
`List.set` ignores writes past the end (such writes are never read back by
the source). -/
def setFoldI {α : Type} (pairs : List (Int × α)) (init : List α) : List α :=
  pairs.foldl (fun acc pv => if pv.1 < 0 then acc else acc.set pv.1.toNat pv.2) init

/-- `applyPermutation` from `src/utils/spn.ts` (generic in the element
type): `next = values.slice(); permutation.forEach((position, index) =>
next[position] = values[index]); return next`. -/
def applyPermutation {α : Type} (values : List α) (perm : List Int) : List α :=
  setFoldI (perm.zip values) values

/-- `invertPermutation` from `src/utils/spn.ts`: fill an array of `-1`s,
write `inverse[target] = index` for each entry, and fail if a `-1`
survives. -/
def invertPermutation (perm : List Int) : Except String (List Int) :=
  let pairs := perm.zip ((List.range perm.length).map Int.ofNat)
  let inverse := setFoldI pairs (List.replicate perm.length (-1 : Int))
  if inverse.any (fun v => v == -1) then
    .error "Permutation is not a bijection and cannot be inverted"
  else .ok inverse

/-- The `forEach` validation loop of `normalizePermutation`: entries must
lie in `[0, blockSize)` and must not repeat; the first offending entry
throws. -/
def checkPermEntries (blockSize : Int) : List Int → List Int → Except String Unit
  | _, [] => .ok ()
  | seen, v :: rest =>
    if v < 0 ∨ blockSize ≤ v then
      .error ("Permutation position " ++ toString v ++ " is outside of 0.." ++
        toString (blockSize - 1))
    else if seen.contains v then
      .error ("Permutation repeats position " ++ toString v)
    else checkPermEntries blockSize (v :: seen) rest

/-- `normalizePermutation` from `src/utils/spn.ts`. -/
def normalizePermutation (perm : List Int) (blockSize : Int) : Except String (List Int) := do
  if Int.ofNat perm.length ≠ blockSize then
    .error ("Permutation should contain " ++ toString blockSize ++
      " positions, received " ++ toString perm.length)
  else
    let hasOneBased := perm.any (fun v => v == blockSize)
    let adjusted := if hasOneBased then perm.map (fun v => v - 1) else perm
    let _ ← checkPermEntries blockSize [] adjusted
    .ok adjusted

/-- The round-building loop of `generateSequentialRounds`.  `remaining` is
the number of rounds still to emit (the JS loop index is
`numberOfRounds - remaining`); the permutation is applied to the running
bit order after every round except the last (`remaining = 1`). -/
def genRoundsAux (boxesPerRound sBoxSize : Nat) (perm : List Int) :
    Nat → Nat → List Int → List RoundDefinition
  | 0, _, _ => []
  | remaining + 1, roundIndex, bitOrder =>
    let sBoxes := (List.range boxesPerRound).map (fun boxIndex =>
      { id := "S" ++ toString (roundIndex + 1) ++ "." ++ toString (boxIndex + 1),
        bitIndexes := (bitOrder.drop (boxIndex * sBoxSize)).take sBoxSize : SBoxDef })
    let nextOrder := if remaining = 0 then bitOrder else applyPermutation bitOrder perm
    { name := "Round " ++ toString (roundIndex + 1), sBoxes := sBoxes } ::
      genRoundsAux boxesPerRound sBoxSize perm remaining (roundIndex + 1) nextOrder

/-- `generateSequentialRounds` from `src/utils/spn.ts`.  The divisibility
guard uses the JS remainder (`Int.tmod`); `sBoxSize = 0` throws in JS
because `blockSize % 0` is `NaN`.  `Array.from({length: n})` clamps a
negative length to `0`, hence the `Int.toNat`s. -/
def generateSequentialRounds (blockSize sBoxSize numberOfRounds : Int)
    (permutation : List Int) : Except String (List RoundDefinition) :=
  if sBoxSize = 0 ∨ Int.tmod blockSize sBoxSize ≠ 0 then
    .error "Block size must be divisible by the S-Box size to build sequential layout"
  else
    let boxesPerRound := (Int.tdiv blockSize sBoxSize).toNat
    let bitOrder := (List.range blockSize.toNat).map Int.ofNat
    .ok (genRoundsAux boxesPerRound sBoxSize.toNat permutation numberOfRounds.toNat 0 bitOrder)

/-- `sanitizeConfig` from `src/utils/spn.ts`: normalize the permutation,
default the rounds (`config.rounds ?? generateSequentialRounds(...)`), and
return the config with those two fields replaced. -/
def sanitizeConfig (config : SPNConfig) : Except String SPNConfig := do
  let normalizedPermutation ← normalizePermutation config.pBox config.blockSize
  let rounds ← match config.rounds with
    | some r => Except.ok r
    | none =>
        generateSequentialRounds config.blockSize config.sBox.size
          config.numberOfRounds normalizedPermutation
  .ok { config with pBox := normalizedPermutation, rounds := some rounds }

example : invertPermutation [1, 0, 3, 2] = .ok [1, 0, 3, 2] := by decide
example : invertPermutation [2, 0, 1] = .ok [1, 2, 0] := by decide
example : (invertPermutation [0, 0, 2]).isOk = false := by decide
example : normalizePermutation [1, 2, 3, 4] 4 = .ok [0, 1, 2, 3] := by decide
example : normalizePermutation [0, 1, 2, 3] 4 = .ok [0, 1, 2, 3] := by decide
example : applyPermutation [10, 20, 30, 40] [1, 0, 3, 2] = [20, 10, 40, 30] := by decide
example :
    generateSequentialRounds 4 2 2 [1, 0, 3, 2] =
      .ok [⟨"Round 1", [⟨"S1.1", [0, 1]⟩, ⟨"S1.2", [2, 3]⟩]⟩,
           ⟨"Round 2", [⟨"S2.1", [1, 0]⟩, ⟨"S2.2", [3, 2]⟩]⟩] := by decide

/-! ## Config validator (`src/routes/spn_visualizer.tsx`) -/

/-- JS `String.prototype.split(sep)` for a single-character separator
(no run collapsing; boundary segments may be empty). -/
def splitOnChar (sep : Char) : List Char → List (List Char)
  | [] => [[]]
  | c :: rest =>
    if c = sep then [] :: splitOnChar sep rest
    else
      match splitOnChar sep rest with
      | [] => [[c]]
      | t :: ts => (c :: t) :: ts

/-- JS `1 << s` (32-bit shift: the count is `ToUint32(s) mod 32` and the
result is reinterpreted as a signed 32-bit integer). -/
def jsShl1 (s : Int) : Int :=
  let shift := (s.emod 32).toNat
  let raw : Nat := 1 <<< shift
  if raw < 2147483648 then (raw : Int) else (raw : Int) - 4294967296

/-- The raw textual form fields feeding `parseConfig`
(`ConfigFormState` from `src/components/ConfigForm.tsx`). -/
structure ConfigFormState where
  blockSize : List Char
  sBoxSize : List Char
  numberOfRounds : List Char
  sBoxTableText : List Char
  pBoxTableText : List Char
  applyFinalPermutation : Bool
  roundLayoutText : List Char
  deriving DecidableEq, Repr

/-- `parseIntegerField`: an empty field and an unparseable field each
produce `null` plus one error message. -/
def parseIntegerField (value : List Char) (label : String) : Option Int × List String :=
  if (trimChars value).isEmpty then
    (none, ["Please enter a value for " ++ label])
  else
    match jsParseIntDec value with
    | none => (none, ["\"" ++ String.mk value ++ "\" is not a valid number for " ++ label])
    | some v => (some v, [])

/-- The `bits.forEach` range check inside `parseRoundLayoutLine`; the first
out-of-range bit throws. -/
def checkBitsInRange (blockSize : Int) : List Int → Except String Unit
  | [] => .ok ()
  | b :: bs =>
    if b < 0 ∨ blockSize ≤ b then
      .error ("Bit index " ++ toString b ++ " is outside 0.." ++ toString (blockSize - 1))
    else checkBitsInRange blockSize bs

/-- The `groups.map` loop of `parseRoundLayoutLine`: parse each group,
check its arity and bit range, and name it `R<round>S<index>`. -/
def parseGroups (roundIndex : Nat) (blockSize sBoxSize : Int) :
    Nat → List (List Char) → Except String (List SBoxDef)
  | _, [] => .ok []
  | index, g :: gs => do
    let bits ← parseNumberList g
    if Int.ofNat bits.length ≠ sBoxSize then
      .error ("S-Box " ++ toString (index + 1) ++ " for round " ++
        toString (roundIndex + 1) ++ " must have " ++ toString sBoxSize ++ " bits")
    else do
      let _ ← checkBitsInRange blockSize bits
      let rest ← parseGroups roundIndex blockSize sBoxSize (index + 1) gs
      .ok ({ id := "R" ++ toString (roundIndex + 1) ++ "S" ++ toString (index + 1),
             bitIndexes := bits } :: rest)

/-- `parseRoundLayoutLine`.  JS `line.split(':', 2)` keeps only the first
two segments, so the layout part is the text between the first and second
colon. -/
def parseRoundLayoutLine (line : List Char) (roundIndex : Nat)
    (blockSize sBoxSize : Int) : Except String RoundDefinition := do
  let defaultLabel := "Round " ++ toString (roundIndex + 1)
  let (label, layoutPart) ←
    if line.contains ':' then
      let left := line.takeWhile (fun c => c ≠ ':')
      let right := ((line.dropWhile (fun c => c ≠ ':')).drop 1).takeWhile (fun c => c ≠ ':')
      if (trimChars right).isEmpty then
        Except.error "Round layout label must be followed by bit groups"
      else
        let l := trimChars left
        Except.ok (if l.isEmpty then defaultLabel else String.mk l, right)
    else Except.ok (defaultLabel, line)
  let groups := ((splitOnChar '|' layoutPart).map trimChars).filter (fun g => ¬g.isEmpty)
  if groups.isEmpty then
    Except.error "Each round needs at least one S-Box group"
  else do
    let sBoxes ← parseGroups roundIndex blockSize sBoxSize 0 groups
    let allBits := (sBoxes.map SBoxDef.bitIndexes).flatten
    if Int.ofNat allBits.length ≠ blockSize then
      Except.error ("Round " ++ toString (roundIndex + 1) ++
        " must describe exactly " ++ toString blockSize ++ " bits in total")
    else if Int.ofNat allBits.dedup.length ≠ blockSize then
      Except.error ("Round " ++ toString (roundIndex + 1) ++ " must cover every bit exactly once")
    else Except.ok { name := label, sBoxes := sBoxes }

/-- The `lines.map` of `parseRoundLayouts`, carrying the round index. -/
def parseRoundLines (blockSize sBoxSize : Int) :
    Nat → List (List Char) → Except String (List RoundDefinition)
  | _, [] => .ok []
  | idx, l :: ls => do
    let rd ← parseRoundLayoutLine l idx blockSize sBoxSize
    let rest ← parseRoundLines blockSize sBoxSize (idx + 1) ls
    .ok (rd :: rest)

/-- `parseRoundLayouts`: empty text means no explicit layout; a single
line is broadcast to every round when `numberOfRounds > 1`. -/
def parseRoundLayouts (text : List Char) (blockSize sBoxSize numberOfRounds : Int) :
    Except String (Option (List RoundDefinition)) := do
  let trimmed := trimChars text
  if trimmed.isEmpty then
    .ok none
  else
    let rawLines := ((splitOnChar '\n' trimmed).map trimChars).filter (fun l => ¬l.isEmpty)
    let lines :=
      if rawLines.length = 1 ∧ 1 < numberOfRounds then
        List.replicate numberOfRounds.toNat (rawLines.headD [])
      else rawLines
    if Int.ofNat lines.length ≠ numberOfRounds then
      .error "Provide one layout per round or a single line to reuse for every round"
    else do
      let rds ← parseRoundLines blockSize sBoxSize 0 lines
      .ok (some rds)

/-- The S-box length error message of `parseConfig`. -/
def sBoxLenMsg (s : Int) : String :=
  "S-Box table should contain " ++ toString (jsShl1 s) ++ " entries for " ++
    toString s ++ "-bit input"

/-- The P-box length error message of `parseConfig`. -/
def pBoxLenMsg (blockSize : Int) : String :=
  "Permutation must list " ++ toString blockSize ++ " positions"

/-- The `sBoxTable` local of `parseConfig`: the parsed table, `[]` when
`parseNumberList` threw. -/
def sBoxTableOf (form : ConfigFormState) : List Int :=
  match parseNumberList form.sBoxTableText with
  | .ok t => t
  | .error _ => []

/-- The error (if any) recorded while parsing the S-box table text. -/
def sBoxTableErr (form : ConfigFormState) : List String :=
  match parseNumberList form.sBoxTableText with
  | .ok _ => []
  | .error m => [m]

/-- The `pBoxTable` local of `parseConfig`. -/
def pBoxTableOf (form : ConfigFormState) : List Int :=
  match parseNumberList form.pBoxTableText with
  | .ok t => t
  | .error _ => []

/-- The error (if any) recorded while parsing the P-box table text. -/
def pBoxTableErr (form : ConfigFormState) : List String :=
  match parseNumberList form.pBoxTableText with
  | .ok _ => []
  | .error m => [m]

/-- The S-box table length cross-check of `parseConfig`: performed only
when the S-box size parsed and the table is nonempty. -/
def sBoxLenErr (form : ConfigFormState) : List String :=
  match (parseIntegerField form.sBoxSize "S-Box size").1 with
  | some s =>
    if (sBoxTableOf form).length ≠ 0 ∧ Int.ofNat (sBoxTableOf form).length ≠ jsShl1 s then
      [sBoxLenMsg s]
    else []
  | none => []

/-- The `roundLayouts` local of `parseConfig` with its recorded error:
attempted only when all three integer fields parsed. -/
def roundLayoutsOf (form : ConfigFormState) :
    Option (List RoundDefinition) × List String :=
  match (parseIntegerField form.blockSize "block size").1,
      (parseIntegerField form.sBoxSize "S-Box size").1,
      (parseIntegerField form.numberOfRounds "round count").1 with
  | some bs, some ss, some n =>
    match parseRoundLayouts form.roundLayoutText bs ss n with
    | .ok r => (r, [])
    | .error m => (none, [m])
  | _, _, _ => (none, [])

/-- The error list of `parseConfig` before the final three checks, in
source push order. -/
def configErrors (form : ConfigFormState) : List String :=
  (parseIntegerField form.blockSize "block size").2 ++
    (parseIntegerField form.sBoxSize "S-Box size").2 ++
    (parseIntegerField form.numberOfRounds "round count").2 ++
    sBoxTableErr form ++ sBoxLenErr form ++ pBoxTableErr form ++
    (roundLayoutsOf form).2

/-- The `baseConfig` local of `parseConfig`. -/
def baseConfigOf (form : ConfigFormState)
    (blockSize sBoxSize numberOfRounds : Int) : SPNConfig :=
  { blockSize := blockSize, numberOfRounds := numberOfRounds,
    sBox := { size := sBoxSize, table := sBoxTableOf form },
    pBox := pBoxTableOf form,
    applyFinalPermutation := form.applyFinalPermutation,
    rounds := (roundLayoutsOf form).1, connectionStyles := [] }

/-- `parseConfig` from `src/routes/spn_visualizer.tsx`: parse every field
independently, collect all error messages in source order, and build the
sanitized config only when no error was recorded. -/
def parseConfig (form : ConfigFormState) : Option SPNConfig × List String :=
  match (parseIntegerField form.blockSize "block size").1,
      (parseIntegerField form.sBoxSize "S-Box size").1,
      (parseIntegerField form.numberOfRounds "round count").1 with
  | some blockSize, some sBoxSize, some numberOfRounds =>
    let errors := configErrors form ++
      (if blockSize ≤ 0 then ["Block size must be at least 1 bit"] else []) ++
      (if sBoxSize ≤ 0 then ["S-Box size must be at least 1 bit"] else []) ++
      (if Int.ofNat (pBoxTableOf form).length ≠ blockSize then [pBoxLenMsg blockSize]
       else [])
    if errors.isEmpty then
      match sanitizeConfig (baseConfigOf form blockSize sBoxSize numberOfRounds) with
      | .ok sanitized => (some sanitized, [])
      | .error m => (none, errors ++ [m])
    else (none, errors)
  | _, _, _ => (none, configErrors form)

example :
    parseConfig
      { blockSize := "4".toList, sBoxSize := "2".toList, numberOfRounds := "1".toList,
        sBoxTableText := "0,1,2,3".toList, pBoxTableText := "1,0,3,2".toList,
        applyFinalPermutation := false, roundLayoutText := "".toList } =
      (some { blockSize := 4, numberOfRounds := 1, sBox := { size := 2, table := [0, 1, 2, 3] },
              pBox := [1, 0, 3, 2], applyFinalPermutation := false,
              rounds := some [⟨"Round 1", [⟨"S1.1", [0, 1]⟩, ⟨"S1.2", [2, 3]⟩]⟩],
              connectionStyles := [] }, []) := by decide

example :
    (parseConfig
      { blockSize := "4".toList, sBoxSize := "2".toList, numberOfRounds := "1".toList,
        sBoxTableText := "0,1,2".toList, pBoxTableText := "1,0,3,2".toList,
        applyFinalPermutation := false, roundLayoutText := "".toList }).1 = none := by decide

/-! ## Trace parser (`src/routes/index.tsx`) -/

/-- `bitsOfNibble` from `src/routes/index.tsx`: the set bit positions
(0–3) of a nibble value.  The argument is the value of a single parsed hex
digit, hence a `Nat`; values above 15 throw. -/
def bitsOfNibble (value : Nat) : Except String (List Nat) :=
  if 15 < value then .error "Nibble must be between 0 and 15"
  else .ok ((List.range 4).filter (fun i => (value &&& (1 <<< i)) ≠ 0))

/-- One character of a state line: `'-'` decodes to `0`, anything else via
`Number.parseInt(char, 16)` (`none` = `NaN`). -/
def charNibble (c : Char) : Option Nat :=
  if c = '-' then some 0 else hexDigitVal c

/-- Decode every character of a state line, failing on the first `NaN`.
(The source computes the whole array first and then checks
`nibbles.some(isNaN)`; the observable result is the same.) -/
def charNibbles : List Char → Option (List Nat)
  | [] => some []
  | c :: cs => do
    let v ← charNibble c
    let vs ← charNibbles cs
    some (v :: vs)

/-- The `nibbles.forEach` decoding loop of `parseStateLine`, over the
enumerated nibble list: bit `b` of nibble `n` becomes global bit
`b + 4 * n`. -/
def nibbleBits : List (Nat × Nat) → Except String (List Nat)
  | [] => .ok []
  | (nibbleIndex, v) :: rest => do
    let bs ← bitsOfNibble v
    let more ← nibbleBits rest
    .ok (bs.map (fun bit => bit + nibbleIndex * 4) ++ more)

/-- `parseStateLine` from `src/routes/index.tsx`: returns the active bit
list and `blockSize = nibbles.length * 4`. -/
def parseStateLine (line : List Char) (reverse : Bool) : Except String (List Nat × Nat) := do
  match charNibbles line with
  | none => Except.error "State line contains invalid characters."
  | some nibbles₀ =>
    let nibbles := if reverse then nibbles₀.reverse else nibbles₀
    let highlightBits ← nibbleBits nibbles.enum
    .ok (highlightBits, nibbles.length * 4)

/-- The character class of the state-line regex `^[0-9a-fA-FxX-]+$`
(one character; the `+` is the nonemptiness check at the use site).
Digits are code points 48–57, `a`–`f` 97–102, `A`–`F` 65–70. -/
def isTraceChar (c : Char) : Bool :=
  (48 ≤ c.toNat && c.toNat ≤ 57) || (97 ≤ c.toNat && c.toNat ≤ 102) ||
    (65 ≤ c.toNat && c.toNat ≤ 70) || c == 'x' || c == 'X' || c == '-'

/-- The per-line `parseStateLine` loop of `extractHighlights`. -/
def parseStateLines (reverse : Bool) : List (List Char) → Except String (List (List Nat × Nat))
  | [] => .ok []
  | l :: ls => do
    let p ← parseStateLine l reverse
    let ps ← parseStateLines reverse ls
    .ok (p :: ps)

/-- `extractHighlights` from `src/routes/index.tsx`.  The JS block-size
accumulator starts at `Infinity`; the fold below starts from the first
line's size instead, which has the same minimum on this (always nonempty)
path.  The column test `line[column].toLowerCase() === 'x'` runs after the
regex check, so every character inspected is in `[0-9a-fA-FxX-]`, where it
is exactly `= 'x' ∨ = 'X'`. -/
def extractHighlights (states : List (List Char)) (reverse : Bool) :
    Except String (List (List Nat) × Nat) :=
  match states with
  | [] => .ok ([], 0)
  | _ =>
    let trimmed := states.map trimChars
    let lineLength := (trimmed.headD []).length
    if trimmed.any (fun l => l.length ≠ lineLength) then
      .error "All state lines must have the same length."
    else if ¬trimmed.all (fun l => ¬l.isEmpty ∧ l.all isTraceChar) then
      .error "State lines must contain only 0-9, a-f, -, or x."
    else
      let dropColumn := (List.range lineLength).map
        (fun column => trimmed.any (fun line =>
          line.getD column ' ' = 'x' ∨ line.getD column ' ' = 'X'))
      let filteredStates := trimmed.map
        (fun line => (line.enum.filter (fun p => ¬dropColumn.getD p.1 false)).map Prod.snd)
      if (filteredStates.headD []).isEmpty then
        .error "No columns remain after removing x columns."
      else do
        let parsed ← parseStateLines reverse filteredStates
        let blockSize :=
          match parsed.map Prod.snd with
          | [] => 0
          | s :: rest => rest.foldl Nat.min s
        .ok (parsed.map Prod.fst, blockSize)

example : extractHighlights ["1000".toList, "0001".toList] false = .ok ([[0], [12]], 16) := by
  decide
example : extractHighlights ["-x-1".toList, "-x-2".toList] false = .ok ([[8], [9]], 12) := by
  decide
example : extractHighlights ["xx".toList] false =
    .error "No columns remain after removing x columns." := by decide
example : extractHighlights [] true = .ok ([], 0) := by decide
example : extractHighlights ["12".toList, "345".toList] false =
    .error "All state lines must have the same length." := by decide
example : extractHighlights ["1g".toList] false =
    .error "State lines must contain only 0-9, a-f, -, or x." := by decide
example : extractHighlights ["21".toList] true = .ok ([[0, 5]], 8) := by decide

/-! ## Network model builder (`src/components/SPNDiagram.tsx`) -/

/-- The `type` field of a stage. -/
inductive StageType where
  | input
  | sbox
  | permutation
  | output
  deriving DecidableEq, Repr

/-- A stage of the network model (`StageData`); `bits` is the bit ordering
visible at the stage. -/
structure StageData where
  id : String
  label : String
  type : StageType
  roundIndex : Option Nat
  bits : List Int
  deriving DecidableEq, Repr

/-- `applyPermutation` from `src/components/SPNDiagram.tsx`: unlike the
utils version it writes into `new Array(order.length)`.  The unwritten
holes are modelled as `0`; every slot is written whenever `permutation` is
a permutation of `[0, order.length)`, which `sanitizeConfig` guarantees
for every config that reaches the diagram. -/
def diagApplyPermutation (order : List Int) (permutation : List Int) : List Int :=
  setFoldI (permutation.zip order) (List.replicate order.length 0)

/-- The round loop of `buildStages`.  `remaining` counts the rounds still
to emit (`roundIndex` is the JS loop variable); the JS guard
`roundIndex < numberOfRounds - 1` is `remaining ≠ 1`, i.e. `k ≠ 0` below.
After the loop the `output` stage carries the final order. -/
def buildRoundStages (config : SPNConfig) : Nat → Nat → List Int → List StageData
  | 0, _, currentOrder =>
    [{ id := "output", label := "Output", type := .output, roundIndex := none,
       bits := currentOrder }]
  | k + 1, roundIndex, currentOrder =>
    let roundName :=
      match config.rounds with
      | some rds =>
        match rds.get? roundIndex with
        | some rd => rd.name
        | none => "Round " ++ toString (roundIndex + 1)
      | none => "Round " ++ toString (roundIndex + 1)
    let sboxStage : StageData :=
      { id := "round-" ++ toString roundIndex ++ "-sbox", label := roundName,
        type := .sbox, roundIndex := some roundIndex, bits := currentOrder }
    let shouldPermute := config.applyFinalPermutation || k ≠ 0
    if shouldPermute then
      let permuted := diagApplyPermutation currentOrder config.pBox
      sboxStage ::
        { id := "round-" ++ toString roundIndex ++ "-perm", label := "Permutation",
          type := .permutation, roundIndex := some roundIndex, bits := permuted } ::
        buildRoundStages config k (roundIndex + 1) permuted
    else sboxStage :: buildRoundStages config k (roundIndex + 1) currentOrder

/-- `buildStages` from `src/components/SPNDiagram.tsx`. -/
def buildStages (config : SPNConfig) : List StageData :=
  let bitOrder := (List.range config.blockSize.toNat).map Int.ofNat
  { id := "input", label := "Input", type := StageType.input, roundIndex := none,
    bits := bitOrder : StageData } ::
    buildRoundStages config config.numberOfRounds.toNat 0 bitOrder

/-! ## Highlight correlator (`src/routes/spn_visualizer.tsx`) -/

/-- `buildHighlightSelectors`: one CSS selector per highlighted wire.
Out-of-range bits are skipped; for rounds past the first, the second
selector (through the previous permutation) is emitted only when
`inversePermutation[bit]` is an actual element
(`Number.isFinite(sourceBit)`). -/
def buildHighlightSelectors (highlights : List (List Int)) (config : SPNConfig)
    (inversePermutation : List Int) : List String :=
  let roundCount := min highlights.length config.numberOfRounds.toNat
  (List.range roundCount).flatMap (fun round =>
    (highlights.getD round []).flatMap (fun bit =>
      if bit < 0 ∨ config.blockSize ≤ bit then []
      else if round = 0 then
        ["#input-\\>round-0-sbox\\#" ++ toString bit]
      else
        ("#round-" ++ toString (round - 1) ++ "-perm-\\>round-" ++ toString round ++
            "-sbox\\#" ++ toString bit) ::
          (match inversePermutation.get? bit.toNat with
           | some sourceBit =>
             [("#round-" ++ toString (round - 1) ++ "-sbox-\\>round-" ++
                toString (round - 1) ++ "-perm\\#" ++ toString sourceBit)]
           | none => [])))

example :
    buildHighlightSelectors [[0], [2]]
      { blockSize := 4, numberOfRounds := 2, sBox := { size := 2, table := [] },
        pBox := [1, 0, 3, 2], applyFinalPermutation := false, rounds := none,
        connectionStyles := [] } [1, 0, 3, 2] =
      ["#input-\\>round-0-sbox\\#0", "#round-0-perm-\\>round-1-sbox\\#2",
       "#round-0-sbox-\\>round-0-perm\\#3"] := by decide

/-! ## List toolkit: indexed writes -/

theorem setFoldI_cons {α : Type} (p : Int × α) (ps : List (Int × α)) (init : List α) :
    setFoldI (p :: ps) init =
      setFoldI ps (if p.1 < 0 then init else init.set p.1.toNat p.2) := by
  simp only [setFoldI, List.foldl_cons]

theorem setFoldI_length {α : Type} (pairs : List (Int × α)) (init : List α) :
    (setFoldI pairs init).length = init.length := by
  induction pairs generalizing init with
  | nil => rfl
  | cons p ps ih =>
    rw [setFoldI_cons, ih]
    split <;> simp

theorem setFoldI_getElem?_of_notin {α : Type} (pairs : List (Int × α)) (init : List α)
    (j : Nat) (h : ∀ kv ∈ pairs, kv.1 ≠ (j : Int)) :
    (setFoldI pairs init)[j]? = init[j]? := by
  induction pairs generalizing init with
  | nil => rfl
  | cons p ps ih =>
    rw [setFoldI_cons, ih _ (fun kv hkv => h kv (List.mem_cons_of_mem _ hkv))]
    split
    · rfl
    · next hneg =>
      apply List.getElem?_set_ne
      intro hEq
      apply h p (List.mem_cons_self _ _)
      rw [← hEq, Int.toNat_of_nonneg (Int.not_lt.mp hneg)]

theorem setFoldI_getElem?_hit {α : Type} (pairs : List (Int × α)) (init : List α)
    (j : Nat) (v : α) (hnd : (pairs.map Prod.fst).Nodup)
    (hmem : ((j : Int), v) ∈ pairs) (hlt : j < init.length) :
    (setFoldI pairs init)[j]? = some v := by
  induction pairs generalizing init with
  | nil => cases hmem
  | cons p ps ih =>
    rw [List.map_cons, List.nodup_cons] at hnd
    rcases List.mem_cons.mp hmem with hEq | htail
    · subst hEq
      rw [setFoldI_cons]
      have hnn : ¬((j : Int) < 0) := Int.not_lt.mpr (Int.natCast_nonneg j)
      rw [if_neg hnn, Int.toNat_natCast]
      rw [setFoldI_getElem?_of_notin]
      · exact List.getElem?_set_self (by simpa using hlt)
      · intro kv hkv hk
        exact hnd.1 (by simpa [hk] using List.mem_map_of_mem Prod.fst hkv)
    · rw [setFoldI_cons]
      apply ih _ hnd.2 htail
      split <;> simp [hlt]

theorem zip_map_fst_take {α β : Type} (l₁ : List α) (l₂ : List β) :
    (l₁.zip l₂).map Prod.fst = l₁.take l₂.length := by
  induction l₁ generalizing l₂ with
  | nil => simp
  | cons a as ih =>
    cases l₂ with
    | nil => simp
    | cons b bs => simp [ih]

/-! ## Bijection facts for the permutation engine -/

/-- `p` is a bijective, 0-based permutation of `[0, n)` (the property that
`normalizePermutation` establishes). -/
def IsPermOn (p : List Int) (n : Nat) : Prop :=
  p.length = n ∧ p.Nodup ∧ ∀ x ∈ p, 0 ≤ x ∧ x < (n : Int)

theorem IsPermOn.toFinset_eq {p : List Int} {n : Nat} (hp : IsPermOn p n) :
    p.toFinset = Finset.Ico (0 : Int) n := by
  apply Finset.eq_of_subset_of_card_le
  · intro x hx
    rw [List.mem_toFinset] at hx
    exact Finset.mem_Ico.mpr (hp.2.2 x hx)
  · rw [Int.card_Ico, List.toFinset_card_of_nodup hp.2.1, hp.1]
    simp

theorem IsPermOn.mem_iff {p : List Int} {n : Nat} (hp : IsPermOn p n) (x : Int) :
    x ∈ p ↔ 0 ≤ x ∧ x < (n : Int) := by
  rw [← List.mem_toFinset, hp.toFinset_eq, Finset.mem_Ico]

theorem IsPermOn.surj {p : List Int} {n : Nat} (hp : IsPermOn p n) (j : Nat) (hj : j < n) :
    ∃ i, i < n ∧ p[i]? = some (j : Int) := by
  have hmem : (j : Int) ∈ p := (hp.mem_iff _).mpr ⟨by positivity, by exact_mod_cast hj⟩
  rcases List.mem_iff_getElem?.mp hmem with ⟨i, hi⟩
  exact ⟨i, hp.1 ▸ (List.getElem?_eq_some_iff.mp hi).1, hi⟩

theorem applyPermutation_length {α : Type} (values : List α) (p : List Int) :
    (applyPermutation values p).length = values.length :=
  setFoldI_length _ _

theorem applyPermutation_hit {α : Type} (values : List α) (p : List Int) (hnd : p.Nodup)
    (i j : Nat) (hpij : p[i]? = some (j : Int)) (hj : j < values.length)
    (hi : i < values.length) :
    (applyPermutation values p)[j]? = values[i]? := by
  have hv : values[i]? = some values[i] := List.getElem?_eq_getElem hi
  have hpair : ((j : Int), values[i]) ∈ p.zip values :=
    List.getElem?_mem (List.getElem?_zip_eq_some.mpr ⟨hpij, hv⟩)
  have hkeys : ((p.zip values).map Prod.fst).Nodup := by
    rw [zip_map_fst_take]
    exact List.Nodup.sublist (List.take_sublist _ _) hnd
  rw [applyPermutation, setFoldI_getElem?_hit _ _ j values[i] hkeys hpair hj, hv]

theorem applyPermutation_cover {α : Type} (values : List α) (p : List Int)
    (hp : IsPermOn p values.length) (j : Nat) (hj : j < values.length) :
    ∃ i, i < values.length ∧ p[i]? = some (j : Int) ∧
      (applyPermutation values p)[j]? = values[i]? := by
  obtain ⟨i, hi, hpi⟩ := hp.surj j hj
  exact ⟨i, hi, hpi, applyPermutation_hit values p hp.2.1 i j hpi hj hi⟩

theorem applyPermutation_isPermOn {values p : List Int} {n : Nat}
    (hv : IsPermOn values n) (hp : IsPermOn p n) :
    IsPermOn (applyPermutation values p) n := by
  have hlen : (applyPermutation values p).length = n := by
    rw [applyPermutation_length, hv.1]
  have hpl : IsPermOn p values.length := hv.1 ▸ hp
  refine ⟨hlen, ?_, ?_⟩
  · rw [List.nodup_iff_injective_get]
    intro g₁ g₂ hEq
    obtain ⟨i₁, hi₁, hpi₁, hv₁⟩ :=
      applyPermutation_cover values p hpl g₁.1 (by rw [hv.1, ← hlen]; exact g₁.2)
    obtain ⟨i₂, hi₂, hpi₂, hv₂⟩ :=
      applyPermutation_cover values p hpl g₂.1 (by rw [hv.1, ← hlen]; exact g₂.2)
    have hg₁ : (applyPermutation values p)[g₁.1]? = some ((applyPermutation values p).get g₁) :=
      List.getElem?_eq_getElem g₁.2
    have hg₂ : (applyPermutation values p)[g₂.1]? = some ((applyPermutation values p).get g₂) :=
      List.getElem?_eq_getElem g₂.2
    have hv₁' : values[i₁]? = some ((applyPermutation values p).get g₁) := by
      rw [← hv₁, hg₁]
    have hv₂' : values[i₂]? = some ((applyPermutation values p).get g₂) := by
      rw [← hv₂, hg₂]
    have hi₁₂ : i₁ = i₂ := by
      have hvget₁ := List.getElem?_eq_some_iff.mp hv₁'
      have hvget₂ := List.getElem?_eq_some_iff.mp hv₂'
      obtain ⟨hlt₁, hval₁⟩ := hvget₁
      obtain ⟨hlt₂, hval₂⟩ := hvget₂
      have : values[i₁] = values[i₂] := by rw [hval₁, hval₂, hEq]
      exact (hv.2.1.getElem_inj_iff).mp this
    apply Fin.ext
    have := hpi₁
    rw [hi₁₂, hpi₂] at this
    exact_mod_cast (Option.some_injective _ this).symm
  · intro x hx
    rcases List.mem_iff_getElem?.mp hx with ⟨j, hj⟩
    have hjlt : j < values.length := by
      have := (List.getElem?_eq_some_iff.mp hj).1
      rw [applyPermutation_length] at this
      exact this
    obtain ⟨i, hi, _, hcov⟩ := applyPermutation_cover values p hpl j hjlt
    rw [hj] at hcov
    exact hv.2.2 x (List.getElem?_mem hcov.symm)

theorem invertPermutation_ok (p : List Int) (n : Nat) (hp : IsPermOn p n) :
    ∃ q, invertPermutation p = .ok q ∧ q.length = n ∧
      (∀ i j : Nat, i < n → j < n → (q[j]? = some (i : Int) ↔ p[i]? = some (j : Int))) ∧
      IsPermOn q n := by
  have hplen : p.length = n := hp.1
  set pairs := p.zip ((List.range p.length).map Int.ofNat) with hpairs
  set inverse := setFoldI pairs (List.replicate p.length (-1 : Int)) with hinv
  have hkeys : pairs.map Prod.fst = p := by
    rw [hpairs, zip_map_fst_take]
    simp
  have hinvlen : inverse.length = n := by
    rw [hinv, setFoldI_length, List.length_replicate, hplen]
  have hit : ∀ i j : Nat, i < n → p[i]? = some (j : Int) → j < n →
      inverse[j]? = some (i : Int) := by
    intro i j hi hpi hj
    have hrng : ((List.range p.length).map Int.ofNat)[i]? = some (i : Int) := by
      rw [List.getElem?_map, List.getElem?_range (hplen ▸ hi)]
      rfl
    have hpair : ((j : Int), (i : Int)) ∈ pairs :=
      List.getElem?_mem (List.getElem?_zip_eq_some.mpr ⟨hpi, hrng⟩)
    exact setFoldI_getElem?_hit _ _ j _ (hkeys ▸ hp.2.1) hpair
      (by rw [List.length_replicate, hplen]; exact hj)
  have hcover : ∀ j : Nat, j < n → ∃ i, i < n ∧ inverse[j]? = some (i : Int) ∧
      p[i]? = some (j : Int) := by
    intro j hj
    obtain ⟨i, hi, hpi⟩ := hp.surj j hj
    exact ⟨i, hi, hit i j hi hpi hj, hpi⟩
  have hany : inverse.any (fun v => v == -1) = false := by
    rw [List.any_eq_false]
    intro x hx
    rcases List.mem_iff_getElem?.mp hx with ⟨j, hj⟩
    have hjlt : j < n := by
      have := (List.getElem?_eq_some_iff.mp hj).1
      rwa [hinvlen] at this
    obtain ⟨i, _, hvj, _⟩ := hcover j hjlt
    rw [hj] at hvj
    have hxi : x = (i : Int) := Option.some_injective _ hvj
    simp [hxi]
  have hok : invertPermutation p = .ok inverse := by
    rw [invertPermutation]
    simp only [← hpairs, ← hinv, hany, Bool.false_eq_true, if_false]
  have hchar : ∀ i j : Nat, i < n → j < n →
      (inverse[j]? = some (i : Int) ↔ p[i]? = some (j : Int)) := by
    intro i j hi hj
    constructor
    · intro hq
      obtain ⟨i₀, _, hvj, hpi₀⟩ := hcover j hj
      rw [hq] at hvj
      have : i = i₀ := by exact_mod_cast Option.some_injective _ hvj
      rwa [this]
    · intro hpi
      exact hit i j hi hpi hj
  refine ⟨inverse, hok, hinvlen, hchar, hinvlen, ?_, ?_⟩
  · rw [List.nodup_iff_injective_get]
    intro g₁ g₂ hEq
    have h₁ : inverse[g₁.1]? = some (inverse.get g₁) := List.getElem?_eq_getElem g₁.2
    have h₂ : inverse[g₂.1]? = some (inverse.get g₂) := List.getElem?_eq_getElem g₂.2
    have hg₁n : g₁.1 < n := hinvlen ▸ g₁.2
    have hg₂n : g₂.1 < n := hinvlen ▸ g₂.2
    obtain ⟨i₁, hi₁, hv₁, hp₁⟩ := hcover g₁.1 hg₁n
    obtain ⟨i₂, hi₂, hv₂, hp₂⟩ := hcover g₂.1 hg₂n
    rw [h₁] at hv₁
    rw [h₂] at hv₂
    have : i₁ = i₂ := by
      have e₁ := Option.some_injective _ hv₁
      have e₂ := Option.some_injective _ hv₂
      have : ((i₁ : Int)) = (i₂ : Int) := by rw [← e₁, ← e₂, hEq]
      exact_mod_cast this
    apply Fin.ext
    rw [this, hp₂] at hp₁
    have hg : ((g₂.1 : Int)) = (g₁.1 : Int) := Option.some_injective _ hp₁
    exact_mod_cast hg.symm
  · intro x hx
    rcases List.mem_iff_getElem?.mp hx with ⟨j, hj⟩
    have hjlt : j < n := by
      have := (List.getElem?_eq_some_iff.mp hj).1
      rwa [hinvlen] at this
    obtain ⟨i, hi, hvj, _⟩ := hcover j hjlt
    rw [hj] at hvj
    have hxi : x = (i : Int) := Option.some_injective _ hvj
    constructor
    · rw [hxi]; positivity
    · rw [hxi]; exact_mod_cast hi

/-- C7: for every bijection `p` over `[0, N)`, `invertPermutation` succeeds,
inverting twice restores `p`, and applying `p` then its inverse restores any
array of length `N`. -/
theorem invertPermutation_involution (p : List Int) (N : Nat) (hp : IsPermOn p N) :
    ∃ q, invertPermutation p = .ok q ∧ invertPermutation q = .ok p ∧
      ∀ a : List Int, a.length = N → applyPermutation (applyPermutation a p) q = a := by
  obtain ⟨q, hq, hqlen, hchar, hqperm⟩ := invertPermutation_ok p N hp
  refine ⟨q, hq, ?_, ?_⟩
  · obtain ⟨r, hr, hrlen, hrchar, _⟩ := invertPermutation_ok q N hqperm
    have hrp : r = p := by
      apply List.ext_getElem?
      intro m
      by_cases hm : m < N
      · have hmp : m < p.length := by rw [hp.1]; exact hm
        have hpm : p[m]? = some p[m] := List.getElem?_eq_getElem hmp
        have hrange := hp.2.2 p[m] (List.getElem?_mem hpm)
        set j := p[m].toNat with hj
        have hcast : ((j : Int)) = p[m] := Int.toNat_of_nonneg hrange.1
        have hjN : j < N := by
          have := hrange.2
          omega
        have hpmj : p[m]? = some (j : Int) := by rw [hcast]; exact hpm
        have hqj : q[j]? = some (m : Int) := (hchar m j hm hjN).mpr hpmj
        have hrm : r[m]? = some (j : Int) := (hrchar j m hjN hm).mpr hqj
        rw [hrm, hpmj]
      · rw [List.getElem?_eq_none (by rw [hrlen]; omega),
          List.getElem?_eq_none (by rw [hp.1]; omega)]
    rw [hrp] at hr
    exact hr
  · intro a ha
    have hpa : IsPermOn p a.length := ha ▸ hp
    have hqa : IsPermOn q a.length := ha ▸ hqperm
    have hblen : (applyPermutation a p).length = a.length := applyPermutation_length a p
    have hqb : IsPermOn q (applyPermutation a p).length := hblen ▸ hqa
    apply List.ext_getElem?
    intro j
    by_cases hj : j < a.length
    · obtain ⟨m, hm, hqm, hcov⟩ :=
        applyPermutation_cover (applyPermutation a p) q hqb j (by rw [hblen]; exact hj)
      have hmN : m < N := by rw [← ha, ← hblen]; exact hm

      have hjN : j < N := ha ▸ hj
      have hpj : p[j]? = some (m : Int) := (hchar j m hjN hmN).mp hqm
      have hhit : (applyPermutation a p)[m]? = a[j]? :=
        applyPermutation_hit a p hp.2.1 j m hpj (by rw [← hblen]; exact hm) hj
      rw [hcov, hhit]
    · rw [List.getElem?_eq_none
        (by rw [applyPermutation_length, hblen]; omega),
        List.getElem?_eq_none (by omega)]

/-! ## Sequential round layout facts -/

theorem range_chunks_flatten {α : Type} (s : Nat) :
    ∀ (m : Nat) (l : List α), l.length = m * s →
      ((List.range m).map (fun b => (l.drop (b * s)).take s)).flatten = l := by
  intro m
  induction m with
  | zero =>
    intro l hl
    simp only [Nat.zero_mul] at hl
    simp [List.length_eq_zero.mp hl]
  | succ m ih =>
    intro l hl
    rw [List.range_succ_eq_map, List.map_cons, List.map_map, List.flatten_cons]
    have htail : (List.range m).map ((fun b => (l.drop (b * s)).take s) ∘ Nat.succ) =
        (List.range m).map (fun b => ((l.drop s).drop (b * s)).take s) := by
      apply List.map_congr_left
      intro b _
      simp only [Function.comp_apply, List.drop_drop]
      have : b.succ * s = s + b * s := by
        rw [Nat.succ_mul]; omega
      rw [this]
    rw [htail, ih (l.drop s) (by rw [List.length_drop, hl, Nat.succ_mul]; omega)]
    simp

theorem genRoundsAux_length (boxes ss : Nat) (perm : List Int) :
    ∀ (k idx : Nat) (ord : List Int), (genRoundsAux boxes ss perm k idx ord).length = k := by
  intro k
  induction k with
  | zero => intro idx ord; rfl
  | succ k ih =>
    intro idx ord
    simp only [genRoundsAux, List.length_cons, ih]

theorem genRoundsAux_partition (boxes ss N : Nat) (perm : List Int)
    (hp : IsPermOn perm N) (hbox : boxes * ss = N) :
    ∀ (k idx : Nat) (ord : List Int), IsPermOn ord N →
      ∀ rd ∈ genRoundsAux boxes ss perm k idx ord,
        ((rd.sBoxes.map SBoxDef.bitIndexes).flatten).Nodup ∧
        ∀ x : Int, x ∈ (rd.sBoxes.map SBoxDef.bitIndexes).flatten ↔ 0 ≤ x ∧ x < (N : Int) := by
  intro k
  induction k with
  | zero => intro idx ord _ rd hrd; cases hrd
  | succ k ih =>
    intro idx ord hord rd hrd
    simp only [genRoundsAux] at hrd
    rcases List.mem_cons.mp hrd with hEq | htail
    · subst hEq
      have hflat : ((((List.range boxes).map (fun boxIndex =>
          ({ id := "S" ++ toString (idx + 1) ++ "." ++ toString (boxIndex + 1),
             bitIndexes := (ord.drop (boxIndex * ss)).take ss } : SBoxDef))).map
            SBoxDef.bitIndexes).flatten) = ord := by
        rw [List.map_map]
        exact range_chunks_flatten ss boxes ord (by rw [hord.1, hbox])
      simp only [hflat]
      exact ⟨hord.2.1, fun x => hord.mem_iff x⟩
    · apply ih (idx + 1) _ _ rd htail
      by_cases hk : k = 0
      · simpa [hk] using hord
      · have hperm' : IsPermOn perm ord.length := hord.1 ▸ hp
        simpa [hk] using applyPermutation_isPermOn hord hp

/-- C6: under the layout preconditions, `generateSequentialRounds` returns
exactly `numberOfRounds` rounds, each of which partitions
`{0, …, blockSize-1}` without duplicates; on the concrete spec example the
permutation is threaded between rounds (applied after every round but the
last), giving the listed grouping. -/
theorem generateSequentialRounds_spec :
    (∀ (blockSize sBoxSize numberOfRounds : Int) (permutation : List Int),
        0 < sBoxSize → sBoxSize ∣ blockSize → 0 < numberOfRounds →
        IsPermOn permutation blockSize.toNat →
        ∃ rounds,
          generateSequentialRounds blockSize sBoxSize numberOfRounds permutation =
            .ok rounds ∧
          Int.ofNat rounds.length = numberOfRounds ∧
          ∀ rd ∈ rounds,
            ((rd.sBoxes.map SBoxDef.bitIndexes).flatten).Nodup ∧
            ∀ x : Int,
              x ∈ (rd.sBoxes.map SBoxDef.bitIndexes).flatten ↔ 0 ≤ x ∧ x < blockSize) ∧
    generateSequentialRounds 8 4 3 [1, 0, 3, 2, 5, 4, 7, 6] =
      .ok [⟨"Round 1", [⟨"S1.1", [0, 1, 2, 3]⟩, ⟨"S1.2", [4, 5, 6, 7]⟩]⟩,
           ⟨"Round 2", [⟨"S2.1", [1, 0, 3, 2]⟩, ⟨"S2.2", [5, 4, 7, 6]⟩]⟩,
           ⟨"Round 3", [⟨"S3.1", [0, 1, 2, 3]⟩, ⟨"S3.2", [4, 5, 6, 7]⟩]⟩] := by
  constructor
  · intro bs ss n perm hss hdvd hn hperm
    have hssne : ss ≠ 0 := ne_of_gt hss
    have htmod : Int.tmod bs ss = 0 := Int.tmod_eq_zero_of_dvd hdvd
    have hguard : ¬(ss = 0 ∨ Int.tmod bs ss ≠ 0) := by
      push_neg
      exact ⟨hssne, htmod⟩
    have hboxmul : (Int.tdiv bs ss).toNat * ss.toNat = bs.toNat := by
      by_cases hbs : 0 ≤ bs
      · set B := bs.toNat with hB
        set S := ss.toNat with hS
        have hcastB : (B : Int) = bs := Int.toNat_of_nonneg hbs
        have hcastS : (S : Int) = ss := Int.toNat_of_nonneg (le_of_lt hss)
        have hSB : S ∣ B := by
          rw [← Int.natCast_dvd_natCast, hcastB, hcastS]
          exact hdvd
        have : Int.tdiv bs ss = ((B / S : Nat) : Int) := by
          rw [← hcastB, ← hcastS]
          exact (Int.ofNat_tdiv B S).symm
        rw [this, Int.toNat_natCast]
        exact Nat.div_mul_cancel hSB
      · push_neg at hbs
        obtain ⟨k, hk⟩ := hdvd
        have htd : Int.tdiv bs ss = k := by
          rw [Int.tdiv_eq_ediv_of_dvd ⟨k, hk⟩, hk, Int.mul_ediv_cancel_left _ hssne]
        have hkneg : k < 0 := by
          by_contra hknn
          push_neg at hknn
          have : 0 ≤ bs := by rw [hk]; positivity
          omega
        rw [htd, Int.toNat_of_nonpos (le_of_lt hkneg), Int.toNat_of_nonpos (le_of_lt hbs)]
        simp
    have hord : IsPermOn ((List.range bs.toNat).map Int.ofNat) bs.toNat := by
      refine ⟨by simp, ?_, ?_⟩
      · exact (List.nodup_range bs.toNat).map Nat.cast_injective
      · intro x hx
        rcases List.mem_map.mp hx with ⟨i, hi, hxi⟩
        rw [List.mem_range] at hi
        constructor
        · rw [← hxi]
          show (0 : Int) ≤ (i : Int)
          exact_mod_cast Nat.zero_le i
        · rw [← hxi]
          show ((i : Int)) < ((bs.toNat : Nat) : Int)
          exact_mod_cast hi
    refine ⟨genRoundsAux (Int.tdiv bs ss).toNat ss.toNat perm n.toNat 0
      ((List.range bs.toNat).map Int.ofNat), ?_, ?_, ?_⟩
    · rw [generateSequentialRounds, if_neg hguard]
    · rw [genRoundsAux_length]
      show ((n.toNat : Nat) : Int) = n
      rw [Int.toNat_of_nonneg (le_of_lt hn)]
    · intro rd hrd
      have hmain := genRoundsAux_partition (Int.tdiv bs ss).toNat ss.toNat bs.toNat perm
        hperm hboxmul n.toNat 0 _ hord rd hrd
      refine ⟨hmain.1, fun x => ?_⟩
      rw [hmain.2 x]
      by_cases hbs : 0 ≤ bs
      · rw [Int.toNat_of_nonneg hbs]
      · push_neg at hbs
        rw [Int.toNat_of_nonpos (le_of_lt hbs)]
        constructor
        · rintro ⟨h0, hlt⟩
          exact absurd (lt_of_le_of_lt h0 hlt) (by simp)
        · rintro ⟨h0, hlt⟩
          exact absurd (lt_of_le_of_lt h0 hlt) (not_lt.mpr (le_of_lt hbs))
  · decide

/-! ## Network model structure facts -/

theorem buildRoundStages_perm_sound (config : SPNConfig) :
    ∀ (k idx : Nat) (ord : List Int) (s : StageData),
      s ∈ buildRoundStages config k idx ord → s.type = .permutation →
      ∃ r, s.roundIndex = some r ∧ idx ≤ r ∧ r < idx + k ∧
        (config.applyFinalPermutation = true ∨ r + 1 < idx + k) := by
  intro k
  induction k with
  | zero =>
    intro idx ord s hs htype
    simp only [buildRoundStages, List.mem_singleton] at hs
    rw [hs] at htype
    cases htype
  | succ k ih =>
    intro idx ord s hs htype
    simp only [buildRoundStages] at hs
    split at hs
    · next hcond =>
      rcases List.mem_cons.mp hs with hEq | hs'
      · rw [hEq] at htype; cases htype
      rcases List.mem_cons.mp hs' with hEq | hrest
      · refine ⟨idx, by rw [hEq], le_refl idx, by omega, ?_⟩
        rcases (by simpa using hcond : config.applyFinalPermutation = true ∨ k ≠ 0) with hafp | hk
        · exact Or.inl hafp
        · right; omega
      · obtain ⟨r, h₁, h₂, h₃, h₄⟩ := ih (idx + 1) _ s hrest htype
        refine ⟨r, h₁, by omega, by omega, ?_⟩
        rcases h₄ with h | h
        · exact Or.inl h
        · right; omega
    · next hcond =>
      rcases List.mem_cons.mp hs with hEq | hrest
      · rw [hEq] at htype; cases htype
      · obtain ⟨r, h₁, h₂, h₃, h₄⟩ := ih (idx + 1) _ s hrest htype
        refine ⟨r, h₁, by omega, by omega, ?_⟩
        rcases h₄ with h | h
        · exact Or.inl h
        · right; omega

theorem buildRoundStages_perm_complete (config : SPNConfig) :
    ∀ (k idx : Nat) (ord : List Int) (r : Nat),
      idx ≤ r → r < idx + k →
      (config.applyFinalPermutation = true ∨ r + 1 < idx + k) →
      ∃ s ∈ buildRoundStages config k idx ord,
        s.type = .permutation ∧ s.roundIndex = some r := by
  intro k
  induction k with
  | zero => intro idx ord r h₁ h₂ _; omega
  | succ k ih =>
    intro idx ord r h₁ h₂ h₃
    by_cases hcond : (config.applyFinalPermutation || decide (k ≠ 0)) = true
    · by_cases hr : r = idx
      · subst hr
        refine ⟨StageData.mk ("round-" ++ toString r ++ "-perm") "Permutation"
          StageType.permutation (some r) (diagApplyPermutation ord config.pBox),
          ?_, rfl, rfl⟩
        simp only [buildRoundStages, hcond, if_true]
        exact List.mem_cons_of_mem _ (List.mem_cons_self _ _)
      · obtain ⟨s, hmem, hty, hri⟩ := ih (idx + 1) (diagApplyPermutation ord config.pBox) r
          (by omega) (by omega) (by rcases h₃ with h | h; exact Or.inl h; right; omega)
        refine ⟨s, ?_, hty, hri⟩
        simp only [buildRoundStages, hcond, if_true]
        exact List.mem_cons_of_mem _ (List.mem_cons_of_mem _ hmem)
    · exfalso
      simp only [Bool.or_eq_true, decide_eq_true_eq, not_or, Bool.not_eq_true, not_not] at hcond
      obtain ⟨hafp, hk⟩ := hcond
      rcases h₃ with h | h
      · rw [hafp] at h; cases h
      · omega

/-- C4: a permutation stage exists for round `r` exactly when
`applyFinalPermutation` is set or `r` is not the last round; on the
concrete 4-bit, 2-round layout the builder emits
`[input, sbox 0, perm 0, sbox 1, output]` and round 1's substitution stage
sees the permuted bit order. -/
theorem buildStages_spec :
    (∀ (config : SPNConfig) (r : Nat), r < config.numberOfRounds.toNat →
      ((∃ s ∈ buildStages config, s.type = .permutation ∧ s.roundIndex = some r) ↔
        (config.applyFinalPermutation = true ∨ r < config.numberOfRounds.toNat - 1))) ∧
    buildStages
        { blockSize := 4, numberOfRounds := 2, sBox := { size := 4, table := [] },
          pBox := [1, 0, 3, 2], applyFinalPermutation := false, rounds := none,
          connectionStyles := [] } =
      [⟨"input", "Input", .input, none, [0, 1, 2, 3]⟩,
       ⟨"round-0-sbox", "Round 1", .sbox, some 0, [0, 1, 2, 3]⟩,
       ⟨"round-0-perm", "Permutation", .permutation, some 0, [1, 0, 3, 2]⟩,
       ⟨"round-1-sbox", "Round 2", .sbox, some 1, [1, 0, 3, 2]⟩,
       ⟨"output", "Output", .output, none, [1, 0, 3, 2]⟩] ∧
    applyPermutation [0, 1, 2, 3] [1, 0, 3, 2] = [1, 0, 3, 2] := by
  refine ⟨?_, by decide, by decide⟩
  intro config r hr
  constructor
  · rintro ⟨s, hmem, hty, hri⟩
    simp only [buildStages] at hmem
    rcases List.mem_cons.mp hmem with hEq | hrest
    · rw [hEq] at hty; cases hty
    · obtain ⟨r', h₁, h₂, h₃, h₄⟩ :=
        buildRoundStages_perm_sound config config.numberOfRounds.toNat 0 _ s hrest hty
      rw [hri] at h₁
      have hrr : r' = r := by exact_mod_cast Option.some_injective _ h₁.symm
      subst hrr
      rcases h₄ with h | h
      · exact Or.inl h
      · right; omega
  · intro h
    obtain ⟨s, hmem, hty, hri⟩ :=
      buildRoundStages_perm_complete config config.numberOfRounds.toNat 0
        ((List.range config.blockSize.toNat).map Int.ofNat) r (Nat.zero_le r)
        (by omega) (by rcases h with h | h; exact Or.inl h; right; omega)
    refine ⟨s, ?_, hty, hri⟩
    simp only [buildStages]
    exact List.mem_cons_of_mem _ hmem

/-- The highlight keys as the specification describes them (§4.6): for the
rounds covered by both the trace and the config, every in-range active bit
of round 0 yields the input wire key; every in-range active bit `b` of a
later round `r` yields the `perm-(r-1) → sbox-r` key for `b` and the
`sbox-(r-1) → perm-(r-1)` key for `inversePermutation[b]`; out-of-range
bits yield nothing.  Written from the claim's words for comparison with
`buildHighlightSelectors`. -/
def highlightKeysSpec (highlights : List (List Int)) (blockSize : Int)
    (numberOfRounds : Nat) (inversePermutation : List Int) : List String :=
  (List.range (min highlights.length numberOfRounds)).flatMap (fun round =>
    (highlights.getD round []).flatMap (fun bit =>
      if 0 ≤ bit ∧ bit < blockSize then
        if round = 0 then ["#input-\\>round-0-sbox\\#" ++ toString bit]
        else
          ["#round-" ++ toString (round - 1) ++ "-perm-\\>round-" ++ toString round ++
              "-sbox\\#" ++ toString bit,
           "#round-" ++ toString (round - 1) ++ "-sbox-\\>round-" ++
              toString (round - 1) ++ "-perm\\#" ++
              toString (inversePermutation.getD bit.toNat 0)]
      else []))

/-- C5: whenever the inverse permutation covers the block (it always does
for the inverse of a sanitized `pBox`), the selector builder emits exactly
the keys of the specification: both keys per in-range bit of a later
round, one key per in-range bit of round 0, nothing for out-of-range bits,
and it never fails. -/
theorem buildHighlightSelectors_spec (highlights : List (List Int)) (config : SPNConfig)
    (inversePermutation : List Int)
    (hinv : inversePermutation.length = config.blockSize.toNat) :
    buildHighlightSelectors highlights config inversePermutation =
      highlightKeysSpec highlights config.blockSize config.numberOfRounds.toNat
        inversePermutation := by
  rw [buildHighlightSelectors, highlightKeysSpec]
  congr 1
  funext round
  congr 1
  funext bit
  by_cases hcond : bit < 0 ∨ config.blockSize ≤ bit
  · have h₂ : ¬(0 ≤ bit ∧ bit < config.blockSize) := by omega
    rw [if_pos hcond, if_neg h₂]
  · have h₂ : 0 ≤ bit ∧ bit < config.blockSize := by omega
    rw [if_neg hcond, if_pos h₂]
    by_cases hr0 : round = 0
    · rw [if_pos hr0, if_pos hr0]
    · rw [if_neg hr0, if_neg hr0]
      have hlt : bit.toNat < inversePermutation.length := by
        rw [hinv]
        omega
      have hget : inversePermutation.get? bit.toNat =
          some (inversePermutation.getD bit.toNat 0) := by
        rw [List.get?_eq_getElem?, List.getElem?_eq_getElem hlt]
        rw [List.getD_eq_getElem _ _ hlt]
      rw [hget]

/-- C9: a successful `sanitizeConfig` changes only `pBox` (to the
normalized permutation) and `rounds` (kept verbatim when supplied); every
other field of the input is returned unchanged. -/
theorem sanitizeConfig_frame (c c' : SPNConfig) (h : sanitizeConfig c = .ok c') :
    c'.blockSize = c.blockSize ∧ c'.sBox = c.sBox ∧
    c'.numberOfRounds = c.numberOfRounds ∧
    c'.applyFinalPermutation = c.applyFinalPermutation ∧
    c'.connectionStyles = c.connectionStyles ∧
    normalizePermutation c.pBox c.blockSize = .ok c'.pBox ∧
    (∀ r, c.rounds = some r → c'.rounds = some r) := by
  unfold sanitizeConfig at h
  cases hnp : normalizePermutation c.pBox c.blockSize with
  | error e =>
    rw [hnp] at h
    cases h
  | ok np =>
    rw [hnp] at h
    cases hr : c.rounds with
    | some r =>
      rw [hr] at h
      cases h
      refine ⟨rfl, rfl, rfl, rfl, rfl, rfl, ?_⟩
      intro r' hr'
      cases hr'
      rfl
    | none =>
      rw [hr] at h
      simp only [bind, Except.bind] at h
      cases hg : generateSequentialRounds c.blockSize c.sBox.size c.numberOfRounds np with
      | error e =>
        rw [hg] at h
        cases h
      | ok rds =>
        rw [hg] at h
        cases h
        refine ⟨rfl, rfl, rfl, rfl, rfl, rfl, ?_⟩
        intro r' hr'
        cases hr'

/-- Witness for C9 at a concrete config. -/
theorem sanitizeConfig_frame_witness :
    (sanitizeConfig
        { blockSize := 2, numberOfRounds := 1, sBox := { size := 1, table := [0, 1] },
          pBox := [1, 0], applyFinalPermutation := true,
          rounds := some [⟨"R", []⟩], connectionStyles := [] } =
      .ok { blockSize := 2, numberOfRounds := 1, sBox := { size := 1, table := [0, 1] },
            pBox := [1, 0], applyFinalPermutation := true,
            rounds := some [⟨"R", []⟩], connectionStyles := [] }) ∧
    ({ blockSize := 2, numberOfRounds := 1, sBox := { size := 1, table := [0, 1] },
       pBox := [1, 0], applyFinalPermutation := true,
       rounds := some [⟨"R", []⟩], connectionStyles := [] } : SPNConfig).blockSize = 2 := by
  refine ⟨?_, ?_⟩
  · decide
  · have := sanitizeConfig_frame
      { blockSize := 2, numberOfRounds := 1, sBox := { size := 1, table := [0, 1] },
        pBox := [1, 0], applyFinalPermutation := true,
        rounds := some [⟨"R", []⟩], connectionStyles := [] }
      { blockSize := 2, numberOfRounds := 1, sBox := { size := 1, table := [0, 1] },
        pBox := [1, 0], applyFinalPermutation := true,
        rounds := some [⟨"R", []⟩], connectionStyles := [] }
      (by decide)
    exact this.1

/-- C10: an empty list of state lines parses successfully to an empty
highlight list with inferred block size 0, raising no error. -/
theorem extractHighlights_empty (reverse : Bool) :
    extractHighlights [] reverse = .ok ([], 0) := rfl

/-- C1 counterexample: on `["1000", "0001"]` the parse does not return
round-1 bits `{3}` with block size 4 (each character is a 4-bit nibble, so
the trace is 16 bits wide). -/
theorem extractHighlights_example_cex :
    extractHighlights ["1000".toList, "0001".toList] false ≠ .ok ([[0], [3]], 4) := by
  decide

/-- C1 (amended): parsing `["1000", "0001"]` succeeds with round 0 active
bits `{0}`, round 1 active bits `{12}`, and inferred block size 16. -/
theorem extractHighlights_example :
    extractHighlights ["1000".toList, "0001".toList] false = .ok ([[0], [12]], 16) := by
  decide

theorem normalizePermutation_length {perm : List Int} {blockSize : Int} {np : List Int}
    (h : normalizePermutation perm blockSize = .ok np) : np.length = perm.length := by
  unfold normalizePermutation at h
  split at h
  · cases h
  · simp only [bind, Except.bind] at h
    cases hchk : checkPermEntries blockSize []
        (if perm.any (fun v => v == blockSize) then perm.map (fun v => v - 1) else perm) with
    | error e =>
      rw [hchk] at h
      cases h
    | ok u =>
      rw [hchk] at h
      cases h
      split <;> simp

/-- C3 counterexample: with S-box size 4 and an *empty* S-box table text,
`parseConfig` happily returns a validated config whose table has 0 entries
even though `1 << 4 = 16`, and reports no error. -/
theorem parseConfig_emptyTable_cex :
    parseConfig
        { blockSize := "4".toList, sBoxSize := "4".toList, numberOfRounds := "1".toList,
          sBoxTableText := "".toList, pBoxTableText := "0,1,2,3".toList,
          applyFinalPermutation := false, roundLayoutText := "".toList } =
      (some { blockSize := 4, numberOfRounds := 1, sBox := { size := 4, table := [] },
              pBox := [0, 1, 2, 3], applyFinalPermutation := false,
              rounds := some [⟨"Round 1", [⟨"S1.1", [0, 1, 2, 3]⟩]⟩],
              connectionStyles := [] }, []) ∧
    jsShl1 4 = 16 := by
  exact ⟨by decide, by decide⟩

/-- C3 (amended): a validated config implies the P-box length matched the
block size, and the S-box table length check only for a *nonempty* parsed
table (an empty table text bypasses the `2^sBoxSize` check); conversely a
nonempty table of the wrong length, or a P-box of the wrong length, always
yields the corresponding error and no config. -/
theorem parseConfig_length_checks (form : ConfigFormState) :
    (∀ cfg, (parseConfig form).1 = some cfg →
      (cfg.sBox.table = [] ∨ Int.ofNat cfg.sBox.table.length = jsShl1 cfg.sBox.size) ∧
        Int.ofNat cfg.pBox.length = cfg.blockSize) ∧
    (∀ s, (parseIntegerField form.sBoxSize "S-Box size").1 = some s →
      sBoxTableOf form ≠ [] → Int.ofNat (sBoxTableOf form).length ≠ jsShl1 s →
      (parseConfig form).1 = none ∧ sBoxLenMsg s ∈ (parseConfig form).2) ∧
    (∀ bs ss n, (parseIntegerField form.blockSize "block size").1 = some bs →
      (parseIntegerField form.sBoxSize "S-Box size").1 = some ss →
      (parseIntegerField form.numberOfRounds "round count").1 = some n →
      Int.ofNat (pBoxTableOf form).length ≠ bs →
      (parseConfig form).1 = none ∧ pBoxLenMsg bs ∈ (parseConfig form).2) := by
  have hlenmsg : ∀ s, sBoxTableOf form ≠ [] →
      Int.ofNat (sBoxTableOf form).length ≠ jsShl1 s →
      (parseIntegerField form.sBoxSize "S-Box size").1 = some s →
      sBoxLenErr form = [sBoxLenMsg s] := by
    intro s hne hmis hss
    unfold sBoxLenErr
    rw [hss]
    show (if (sBoxTableOf form).length ≠ 0 ∧ Int.ofNat (sBoxTableOf form).length ≠ jsShl1 s
        then [sBoxLenMsg s] else []) = [sBoxLenMsg s]
    rw [if_pos ⟨fun h0 => hne (List.length_eq_zero.mp h0), hmis⟩]
  have hmemErr : ∀ s, sBoxLenErr form = [sBoxLenMsg s] →
      sBoxLenMsg s ∈ configErrors form := by
    intro s hEq
    unfold configErrors
    refine List.mem_append.mpr (Or.inl ?_)
    refine List.mem_append.mpr (Or.inl ?_)
    refine List.mem_append.mpr (Or.inr ?_)
    rw [hEq]
    exact List.mem_singleton.mpr rfl
  refine ⟨?_, ?_, ?_⟩
  · intro cfg hcfg
    unfold parseConfig at hcfg
    split at hcfg
    · next bs ss n hbs hss hnr =>
      set errors := configErrors form ++
        (if bs ≤ 0 then ["Block size must be at least 1 bit"] else []) ++
        (if ss ≤ 0 then ["S-Box size must be at least 1 bit"] else []) ++
        (if Int.ofNat (pBoxTableOf form).length ≠ bs then [pBoxLenMsg bs] else [])
        with herrs
      by_cases hemp : errors.isEmpty
      · rw [if_pos hemp] at hcfg
        have hnil : errors = [] := List.isEmpty_iff.mp hemp
        rw [herrs] at hnil
        have h₁ := List.append_eq_nil.mp hnil
        have h₂ := List.append_eq_nil.mp h₁.1
        have h₃ := List.append_eq_nil.mp h₂.1
        have hcfgerr : configErrors form = [] := h₃.1
        have hpboxif :
            (if Int.ofNat (pBoxTableOf form).length ≠ bs then [pBoxLenMsg bs] else []) =
              ([] : List String) := h₁.2
        have hpboxlen : Int.ofNat (pBoxTableOf form).length = bs := by
          by_contra hc
          rw [if_pos hc] at hpboxif
          cases hpboxif
        have hsberr : sBoxLenErr form = [] := by
          unfold configErrors at hcfgerr
          have a₁ := List.append_eq_nil.mp hcfgerr
          have a₂ := List.append_eq_nil.mp a₁.1
          have a₃ := List.append_eq_nil.mp a₂.1
          exact a₃.2
        have hsbox : sBoxTableOf form = [] ∨
            Int.ofNat (sBoxTableOf form).length = jsShl1 ss := by
          unfold sBoxLenErr at hsberr
          rw [hss] at hsberr
          have hsberr' :
              (if (sBoxTableOf form).length ≠ 0 ∧
                  Int.ofNat (sBoxTableOf form).length ≠ jsShl1 ss
                then [sBoxLenMsg ss] else []) = ([] : List String) := hsberr
          by_cases hcnd : (sBoxTableOf form).length ≠ 0 ∧
              Int.ofNat (sBoxTableOf form).length ≠ jsShl1 ss
          · rw [if_pos hcnd] at hsberr'
            cases hsberr'
          · push_neg at hcnd
            by_cases h0 : (sBoxTableOf form).length = 0
            · exact Or.inl (List.length_eq_zero.mp h0)
            · exact Or.inr (hcnd h0)
        cases hsan : sanitizeConfig (baseConfigOf form bs ss n) with
        | error m =>
          rw [hsan] at hcfg
          cases hcfg
        | ok sanitized =>
          rw [hsan] at hcfg
          cases hcfg
          obtain ⟨hbsz, hsbx, _, _, _, hnp, _⟩ :=
            sanitizeConfig_frame _ _ hsan
          constructor
          · rw [hsbx]
            exact hsbox
          · have hlen := normalizePermutation_length hnp
            rw [hbsz]
            show Int.ofNat cfg.pBox.length = (baseConfigOf form bs ss n).blockSize
            rw [hlen]
            exact hpboxlen
      · rw [if_neg hemp] at hcfg
        cases hcfg
    · cases hcfg
  · intro s hss hne hmis
    have hErr := hlenmsg s hne hmis hss
    have hmem := hmemErr s hErr
    unfold parseConfig
    split
    · next bs ss n hbs hss' hnr =>
      have hmem' : sBoxLenMsg s ∈ configErrors form ++
          (if bs ≤ 0 then ["Block size must be at least 1 bit"] else []) ++
          (if ss ≤ 0 then ["S-Box size must be at least 1 bit"] else []) ++
          (if Int.ofNat (pBoxTableOf form).length ≠ bs then [pBoxLenMsg bs] else []) := by
        refine List.mem_append.mpr (Or.inl ?_)
        refine List.mem_append.mpr (Or.inl ?_)
        exact List.mem_append.mpr (Or.inl hmem)
      rw [if_neg (by
        intro hempty
        rw [List.isEmpty_iff.mp hempty] at hmem'
        cases hmem')]
      exact ⟨rfl, hmem'⟩
    · exact ⟨rfl, hmem⟩
  · intro bs ss n hbs hss hnr hmis
    have hmem' : pBoxLenMsg bs ∈ configErrors form ++
        (if bs ≤ 0 then ["Block size must be at least 1 bit"] else []) ++
        (if ss ≤ 0 then ["S-Box size must be at least 1 bit"] else []) ++
        (if Int.ofNat (pBoxTableOf form).length ≠ bs then [pBoxLenMsg bs] else []) := by
      refine List.mem_append.mpr (Or.inr ?_)
      rw [if_pos hmis]
      exact List.mem_singleton.mpr rfl
    have hnotempty : (configErrors form ++
        (if bs ≤ 0 then ["Block size must be at least 1 bit"] else []) ++
        (if ss ≤ 0 then ["S-Box size must be at least 1 bit"] else []) ++
        (if Int.ofNat (pBoxTableOf form).length ≠ bs then [pBoxLenMsg bs] else [])).isEmpty
          = false := by
      cases hlist : configErrors form ++
          (if bs ≤ 0 then ["Block size must be at least 1 bit"] else []) ++
          (if ss ≤ 0 then ["S-Box size must be at least 1 bit"] else []) ++
          (if Int.ofNat (pBoxTableOf form).length ≠ bs then [pBoxLenMsg bs] else []) with
      | nil =>
        rw [hlist] at hmem'
        cases hmem'
      | cons a l => rfl
    simp only [parseConfig, hbs, hss, hnr, hnotempty, Bool.false_eq_true, if_false]
    exact ⟨trivial, hmem'⟩

/-! ## Number list parser facts -/

theorem tokensOf_ne_nil {text : List Char} {tok : List Char}
    (h : tok ∈ tokensOf text) : tok ≠ [] := by
  unfold tokensOf at h
  have := List.of_mem_filter h
  intro hnl
  rw [hnl] at this
  simp at this

theorem parseTokens_ok_iff (toks : List (List Char)) :
    (∃ l, parseTokens toks = .ok l) ↔
      ∀ t ∈ toks, (parseNumberToken t).isOk = true := by
  induction toks with
  | nil => simp [parseTokens]
  | cons t ts ih =>
    constructor
    · rintro ⟨l, hl⟩
      intro t' ht'
      cases htok : parseNumberToken t with
      | error e =>
        rw [parseTokens, htok] at hl
        simp [bind, Except.bind] at hl
      | ok v =>
        rcases List.mem_cons.mp ht' with hEq | hmem
        · rw [hEq, htok]
          rfl
        · cases hts : parseTokens ts with
          | error e =>
            rw [parseTokens, htok, hts] at hl
            simp [bind, Except.bind] at hl
          | ok vs =>
            exact (ih.mp ⟨vs, hts⟩) t' hmem
    · intro hall
      have hhead := hall t (List.mem_cons_self _ _)
      cases htok : parseNumberToken t with
      | error e => rw [htok] at hhead; cases hhead
      | ok v =>
        obtain ⟨vs, hvs⟩ := ih.mpr (fun t' ht' => hall t' (List.mem_cons_of_mem _ ht'))
        exact ⟨v :: vs, by rw [parseTokens, htok, hvs]; rfl⟩

theorem parseTokens_error (toks : List (List Char)) (e : String)
    (h : parseTokens toks = .error e) :
    ∃ t ∈ toks, parseNumberToken t = .error e := by
  induction toks with
  | nil => cases h
  | cons t ts ih =>
    cases htok : parseNumberToken t with
    | error e' =>
      rw [parseTokens, htok] at h
      simp only [bind, Except.bind] at h
      cases h
      exact ⟨t, List.mem_cons_self _ _, htok⟩
    | ok v =>
      rw [parseTokens, htok] at h
      simp only [bind, Except.bind] at h
      cases hts : parseTokens ts with
      | error e' =>
        rw [hts] at h
        cases h
        obtain ⟨t', ht', he'⟩ := ih hts
        exact ⟨t', List.mem_cons_of_mem _ ht', he'⟩
      | ok vs =>
        rw [hts] at h
        cases h

theorem parseNumberToken_error_form (tok : List Char) (e : String)
    (hne : tok ≠ []) (h : parseNumberToken tok = .error e) :
    e = "Unable to parse number token \"" ++ String.mk tok ++ "\"" := by
  unfold parseNumberToken at h
  rw [if_neg (by simpa using hne)] at h
  simp only [] at h
  split at h
  · cases h
    rfl
  · cases h

/-- C2 counterexample: `"1,,2"` has a blank segment between two comma
separators, yet `parseNumberList` succeeds with `[1, 2]` instead of
failing with the empty-token error. -/
theorem parseNumberList_blank_cex :
    parseNumberList "1,,2".toList = .ok [1, 2] ∧
    parseNumberList "1,,2".toList ≠ .error "Encountered empty numeric token" :=
  ⟨by decide, by decide⟩

/-- C2 (amended): tokenization splits on *runs* of separators and drops
blank segments, so `parseNumberList` never fails with the empty-token
error; it succeeds exactly when every token parses after normalization
(JS `parseInt` semantics: any token with a parseable prefix counts), and
every failure is the invalid-token error of some token of the split. -/
theorem parseNumberList_error_spec (text : List Char) :
    ((∃ l, parseNumberList text = .ok l) ↔
      ∀ tok ∈ tokensOf text, (parseNumberToken tok).isOk = true) ∧
    (∀ e, parseNumberList text = .error e →
      ∃ tok ∈ tokensOf text, tok ≠ [] ∧
        e = "Unable to parse number token \"" ++ String.mk tok ++ "\"") := by
  constructor
  · exact parseTokens_ok_iff (tokensOf text)
  · intro e he
    obtain ⟨tok, htok, herr⟩ := parseTokens_error (tokensOf text) e he
    have hne := tokensOf_ne_nil htok
    exact ⟨tok, htok, hne, parseNumberToken_error_form tok e hne herr⟩

/-! ## Trace parser: column-masking facts -/

/-- The specification's column-masking predicate: some line of the trace
has `x`/`X` in the given column. -/
def colHasX (states : List (List Char)) (col : Nat) : Bool :=
  states.any (fun line => line.getD col ' ' = 'x' ∨ line.getD col ' ' = 'X')

/-- The specification's filtered line: the characters whose column is not
masked anywhere in the trace. -/
def maskLine (states : List (List Char)) (l : List Char) : List Char :=
  (l.enum.filter (fun p => ¬colHasX states p.1)).map Prod.snd

/-- The number of columns (out of `L`) that survive masking. -/
def keptCount (states : List (List Char)) (L : Nat) : Nat :=
  ((List.range L).filter (fun c => ¬colHasX states c)).length

/-- The 4-bit value of one trace character (`-` is 0). -/
def nibbleVal (c : Char) : Nat :=
  if c = '-' then 0 else (hexDigitVal c).getD 0

/-- The specification's per-line decoder (§4.5): reverse the characters if
requested, decode each to a 4-bit value, and emit `b + 4·n` for every set
bit `b` of nibble `n`. -/
def specDecodeLine (l : List Char) (reverse : Bool) : List Nat :=
  (((if reverse then l.reverse else l).map nibbleVal).enum).flatMap (fun p =>
    ((List.range 4).filter (fun b => (p.2 &&& (1 <<< b)) ≠ 0)).map
      (fun b => b + p.1 * 4))

theorem traceChar_not_ws {c : Char} (h : isTraceChar c = true) :
    isJsWhitespace c = false := by
  simp only [isTraceChar, Bool.or_eq_true, Bool.and_eq_true, decide_eq_true_eq,
    beq_iff_eq] at h
  simp only [isJsWhitespace, jsWhitespaceCodes, List.contains, List.elem_eq_mem,
    List.mem_cons, List.not_mem_nil, or_false, decide_eq_false_iff_not]
  rcases h with ((((⟨h1, h2⟩ | ⟨h1, h2⟩) | ⟨h1, h2⟩) | h) | h) | h
  · intro hc; omega
  · intro hc; omega
  · intro hc; omega
  · subst h; decide
  · subst h; decide
  · subst h; decide

theorem trimChars_eq_self {l : List Char} (h : ∀ c ∈ l, isTraceChar c = true) :
    trimChars l = l := by
  unfold trimChars
  have h₁ : l.dropWhile isJsWhitespace = l := by
    cases l with
    | nil => rfl
    | cons c cs =>
      rw [List.dropWhile_cons_of_neg]
      simp [traceChar_not_ws (h c (List.mem_cons_self _ _))]
  rw [h₁]
  have h₂ : l.reverse.dropWhile isJsWhitespace = l.reverse := by
    cases hrev : l.reverse with
    | nil => rfl
    | cons c cs =>
      rw [List.dropWhile_cons_of_neg]
      have hc : c ∈ l := by
        rw [← List.mem_reverse, hrev]
        exact List.mem_cons_self _ _
      simp [traceChar_not_ws (h c hc)]
  rw [h₂, List.reverse_reverse]

theorem hexDigitVal_isSome {c : Char}
    (h : (48 ≤ c.toNat ∧ c.toNat ≤ 57) ∨ (97 ≤ c.toNat ∧ c.toNat ≤ 102) ∨
      (65 ≤ c.toNat ∧ c.toNat ≤ 70)) :
    hexDigitVal c = some ((hexDigitVal c).getD 0) := by
  unfold hexDigitVal
  rcases h with ⟨h1, h2⟩ | ⟨h1, h2⟩ | ⟨h1, h2⟩
  · rw [if_pos ⟨h1, h2⟩]
    rfl
  · rw [if_neg (by omega), if_pos ⟨h1, h2⟩]
    rfl
  · rw [if_neg (by omega), if_neg (by omega), if_pos ⟨h1, h2⟩]
    rfl

theorem charNibble_eq_nibbleVal {c : Char} (h : isTraceChar c = true)
    (hx : c ≠ 'x') (hX : c ≠ 'X') : charNibble c = some (nibbleVal c) := by
  by_cases hd : c = '-'
  · simp [charNibble, nibbleVal, hd]
  · simp only [charNibble, nibbleVal, if_neg hd]
    simp only [isTraceChar, Bool.or_eq_true, Bool.and_eq_true, decide_eq_true_eq,
      beq_iff_eq] at h
    rcases h with ((((⟨h1, h2⟩ | ⟨h1, h2⟩) | ⟨h1, h2⟩) | h) | h) | h
    · exact hexDigitVal_isSome (Or.inl ⟨h1, h2⟩)
    · exact hexDigitVal_isSome (Or.inr (Or.inl ⟨h1, h2⟩))
    · exact hexDigitVal_isSome (Or.inr (Or.inr ⟨h1, h2⟩))
    · exact absurd h hx
    · exact absurd h hX
    · exact absurd h hd

theorem nibbleVal_le_15 (c : Char) : nibbleVal c ≤ 15 := by
  unfold nibbleVal hexDigitVal
  split
  · omega
  · split
    · simp
      omega
    · split
      · simp
        omega
      · split
        · simp
          omega
        · simp

theorem charNibbles_eq {l : List Char}
    (h : ∀ c ∈ l, charNibble c = some (nibbleVal c)) :
    charNibbles l = some (l.map nibbleVal) := by
  induction l with
  | nil => rfl
  | cons c cs ih =>
    rw [charNibbles, h c (List.mem_cons_self _ _),
      ih (fun c' hc' => h c' (List.mem_cons_of_mem _ hc'))]
    rfl

theorem bitsOfNibble_ok {v : Nat} (h : v ≤ 15) :
    bitsOfNibble v = .ok ((List.range 4).filter (fun i => (v &&& (1 <<< i)) ≠ 0)) := by
  unfold bitsOfNibble
  rw [if_neg (by omega)]

theorem nibbleBits_ok (pairs : List (Nat × Nat)) (h : ∀ p ∈ pairs, p.2 ≤ 15) :
    nibbleBits pairs = .ok (pairs.flatMap (fun p =>
      ((List.range 4).filter (fun b => (p.2 &&& (1 <<< b)) ≠ 0)).map
        (fun b => b + p.1 * 4))) := by
  induction pairs with
  | nil => rfl
  | cons p ps ih =>
    obtain ⟨i, v⟩ := p
    rw [nibbleBits, bitsOfNibble_ok (h (i, v) (List.mem_cons_self _ _)),
      ih (fun q hq => h q (List.mem_cons_of_mem _ hq))]
    simp [bind, Except.bind, List.flatMap_cons]

theorem parseStateLine_ok (l : List Char) (reverse : Bool)
    (h : ∀ c ∈ l, charNibble c = some (nibbleVal c)) :
    parseStateLine l reverse = .ok (specDecodeLine l reverse, l.length * 4) := by
  unfold parseStateLine
  rw [charNibbles_eq h]
  have hnib : (if reverse = true then (l.map nibbleVal).reverse else l.map nibbleVal) =
      (if reverse = true then l.reverse else l).map nibbleVal := by
    cases reverse
    · rfl
    · simp [List.map_reverse]
  have hle : ∀ p ∈ ((if reverse = true then (l.map nibbleVal).reverse
      else l.map nibbleVal)).enum, p.2 ≤ 15 := by
    intro p hp
    have hmem : p.2 ∈ (if reverse = true then (l.map nibbleVal).reverse
        else l.map nibbleVal) :=
      List.getElem?_mem (List.mem_enum_iff_getElem?.mp hp)
    rw [hnib] at hmem
    rcases List.mem_map.mp hmem with ⟨c, _, hc⟩
    rw [← hc]
    exact nibbleVal_le_15 c
  simp only [nibbleBits_ok _ hle, bind, Except.bind]
  unfold specDecodeLine
  rw [hnib]
  cases reverse <;> simp

theorem parseStateLines_ok (reverse : Bool) (lines : List (List Char))
    (h : ∀ l ∈ lines, parseStateLine l reverse = .ok (specDecodeLine l reverse, l.length * 4)) :
    parseStateLines reverse lines =
      .ok (lines.map (fun l => (specDecodeLine l reverse, l.length * 4))) := by
  induction lines with
  | nil => rfl
  | cons l ls ih =>
    rw [parseStateLines, h l (List.mem_cons_self _ _),
      ih (fun l' hl' => h l' (List.mem_cons_of_mem _ hl'))]
    rfl

theorem maskLine_length (states : List (List Char)) (l : List Char) :
    (maskLine states l).length = keptCount states l.length := by
  unfold maskLine keptCount
  rw [List.length_map, ← List.countP_eq_length_filter, ← List.countP_eq_length_filter,
    ← List.enum_map_fst l, List.countP_map]
  rfl

theorem foldl_min_const {s : Nat} : ∀ xs : List Nat, (∀ x ∈ xs, x = s) →
    xs.foldl Nat.min s = s := by
  intro xs
  induction xs with
  | nil => intro _; rfl
  | cons x xs ih =>
    intro h
    rw [List.foldl_cons, h x (List.mem_cons_self _ _)]
    have hms : Nat.min s s = s := Nat.min_self s
    rw [hms]
    exact ih (fun y hy => h y (List.mem_cons_of_mem _ hy))

theorem maskLine_mem {states : List (List Char)} {l : List Char} {c : Char}
    (hc : c ∈ maskLine states l) :
    ∃ i, l[i]? = some c ∧ colHasX states i = false := by
  unfold maskLine at hc
  rcases List.mem_map.mp hc with ⟨p, hp, hpc⟩
  have hfilter := List.mem_filter.mp hp
  refine ⟨p.1, ?_, ?_⟩
  · rw [← hpc]
    exact List.mem_enum_iff_getElem?.mp hfilter.1
  · have := hfilter.2
    simp only [decide_eq_true_eq] at this
    exact Bool.not_eq_true _ ▸ (by simpa using this)

theorem maskLine_charNibble {states : List (List Char)} {l : List Char} {c : Char}
    (hl : l ∈ states) (halpha : ∀ c' ∈ l, isTraceChar c' = true)
    (hc : c ∈ maskLine states l) : charNibble c = some (nibbleVal c) := by
  obtain ⟨i, hi, hnox⟩ := maskLine_mem hc
  have hcl : c ∈ l := List.getElem?_mem hi
  have htr := halpha c hcl
  have hgetD : l.getD i ' ' = c := by
    unfold List.getD
    rw [List.get?_eq_getElem?, hi]
    rfl
  have hxX : ¬(c = 'x' ∨ c = 'X') := by
    intro hor
    have : colHasX states i = true := by
      unfold colHasX
      rw [List.any_eq_true]
      exact ⟨l, hl, by rw [hgetD]; simpa using hor⟩
    rw [this] at hnox
    cases hnox
  push_neg at hxX
  exact charNibble_eq_nibbleVal htr hxX.1 hxX.2

theorem dropColumn_getD (states : List (List Char)) (L i : Nat) (hi : i < L) :
    ((List.range L).map (fun col => states.any
      (fun line => line.getD col ' ' = 'x' ∨ line.getD col ' ' = 'X'))).getD i false =
      colHasX states i := by
  unfold List.getD
  rw [List.get?_eq_getElem?, List.getElem?_map, List.getElem?_range hi]
  rfl

theorem filterLine_eq (states : List (List Char)) (L : Nat) (l : List Char)
    (hlL : l.length = L) :
    (l.enum.filter (fun p => ¬((List.range L).map (fun col => states.any
        (fun line => line.getD col ' ' = 'x' ∨ line.getD col ' ' = 'X'))).getD p.1
          false)).map Prod.snd =
      maskLine states l := by
  unfold maskLine
  congr 1
  apply List.filter_congr
  intro p hp
  have hpL : p.1 < L := by
    rw [← hlL]
    exact (List.getElem?_eq_some_iff.mp (List.mem_enum_iff_getElem?.mp hp)).1
  rw [dropColumn_getD states L p.1 hpL]

/-- C8: on a nonempty trace of equal-length lines over the alphabet, a
column is masked from every line exactly when some line carries `x`/`X`
there (`colHasX`/`maskLine`); decoding runs on the masked lines only, and
the parse fails whenever no column survives. -/
theorem extractHighlights_masking (states : List (List Char)) (reverse : Bool) (L : Nat)
    (hne : states ≠ [])
    (hlen : ∀ l ∈ states, l.length = L)
    (halpha : ∀ l ∈ states, ∀ c ∈ l, isTraceChar c = true) :
    (keptCount states L = 0 → ∃ e, extractHighlights states reverse = .error e) ∧
    (keptCount states L ≠ 0 →
      extractHighlights states reverse =
        .ok (states.map (fun l => specDecodeLine (maskLine states l) reverse),
          4 * keptCount states L)) := by
  obtain ⟨s0, rest, rfl⟩ : ∃ s0 rest, states = s0 :: rest := by
    cases states with
    | nil => exact absurd rfl hne
    | cons a b => exact ⟨a, b, rfl⟩
  have hmem0 : s0 ∈ s0 :: rest := List.mem_cons_self _ _
  have hlen0 : s0.length = L := hlen s0 hmem0
  have htrimmap : (s0 :: rest).map trimChars = s0 :: rest := by
    have hh : (s0 :: rest).map trimChars = (s0 :: rest).map id :=
      List.map_congr_left (fun l hl => trimChars_eq_self (halpha l hl))
    rw [hh, List.map_id]
  unfold extractHighlights
  rw [htrimmap]
  simp only [List.headD_cons]
  have hc1 : ((s0 :: rest).any fun l => decide (l.length ≠ s0.length)) = false := by
    rw [List.any_eq_false]
    intro l hl
    simp [hlen l hl, hlen0]
  rw [hc1]
  simp only [Bool.false_eq_true, if_false]
  by_cases hL : L = 0
  · have hs0 : s0 = [] := List.length_eq_zero.mp (by omega)
    have hkept : keptCount (s0 :: rest) L = 0 := by
      unfold keptCount
      rw [hL]
      rfl
    have hc2 : ((s0 :: rest).all fun l => decide (¬l.isEmpty = true ∧ l.all isTraceChar = true)) = false := by
      cases hall : (s0 :: rest).all fun l => decide (¬l.isEmpty = true ∧ l.all isTraceChar = true) with
      | false => rfl
      | true =>
        exfalso
        have := (List.all_eq_true.mp hall) s0 hmem0
        rw [hs0] at this
        simp at this
    constructor
    · intro _
      refine ⟨"State lines must contain only 0-9, a-f, -, or x.", ?_⟩
      rw [hc2]
      simp
    · intro hk
      exact absurd hkept hk
  · have hc2 : ((s0 :: rest).all fun l =>
        decide (¬l.isEmpty = true ∧ l.all isTraceChar = true)) = true := by
      rw [List.all_eq_true]
      intro l hl
      have h1 : l ≠ [] := by
        intro hnil
        have := hlen l hl
        rw [hnil] at this
        simp at this
        omega
      have h2 : l.all isTraceChar = true :=
        List.all_eq_true.mpr (fun c hc => halpha l hl c hc)
      simp [h2]
      exact h1
    rw [hc2]
    rw [if_neg (by simp)]
    have hfmap : List.map (fun line => List.map Prod.snd (List.filter
        (fun p => decide ¬(List.map (fun column => (s0 :: rest).any fun line =>
          decide (line.getD column ' ' = 'x' ∨ line.getD column ' ' = 'X'))
            (List.range s0.length)).getD p.1 false = true) line.enum)) (s0 :: rest) =
        List.map (maskLine (s0 :: rest)) (s0 :: rest) := by
      apply List.map_congr_left
      intro l hl
      exact filterLine_eq (s0 :: rest) s0.length l (by rw [hlen l hl, hlen0])
    rw [hfmap]
    simp only [List.map_cons, List.headD_cons]
    have hlenmask : (maskLine (s0 :: rest) s0).length = keptCount (s0 :: rest) L := by
      rw [maskLine_length, hlen0]
    by_cases hk : keptCount (s0 :: rest) L = 0
    · have hie : (maskLine (s0 :: rest) s0).isEmpty = true :=
        List.isEmpty_iff.mpr (List.length_eq_zero.mp (by rw [hlenmask, hk]))
      rw [hie]
      rw [if_pos rfl]
      constructor
      · intro _
        exact ⟨"No columns remain after removing x columns.", rfl⟩
      · intro hkk
        exact absurd hk hkk
    · have hnenil : maskLine (s0 :: rest) s0 ≠ [] := by
        intro hnil
        apply hk
        rw [← hlenmask, hnil]
        rfl
      have hie : (maskLine (s0 :: rest) s0).isEmpty = false := by
        cases hie0 : (maskLine (s0 :: rest) s0).isEmpty with
        | false => rfl
        | true => exact absurd (List.isEmpty_iff.mp hie0) hnenil
      rw [hie]
      rw [if_neg (by simp)]
      have hper : ∀ l' ∈ List.map (maskLine (s0 :: rest)) (s0 :: rest),
          parseStateLine l' reverse = .ok (specDecodeLine l' reverse, l'.length * 4) := by
        intro l' hl'
        rcases List.mem_map.mp hl' with ⟨l, hl, rfl⟩
        exact parseStateLine_ok _ reverse
          (fun c hc => maskLine_charNibble hl (halpha l hl) hc)
      rw [← List.map_cons]
      rw [parseStateLines_ok reverse _ hper]
      simp only [bind, Except.bind]
      constructor
      · intro hk0
        exact absurd hk0 hk
      · intro _
        have hfst : List.map Prod.fst (List.map
            (fun l => (specDecodeLine l reverse, l.length * 4))
            (List.map (maskLine (s0 :: rest)) (s0 :: rest))) =
            List.map (fun l => specDecodeLine (maskLine (s0 :: rest) l) reverse)
              (s0 :: rest) := by
          simp [List.map_map, Function.comp]
        have hsnd : List.map Prod.snd (List.map
            (fun l => (specDecodeLine l reverse, l.length * 4))
            (List.map (maskLine (s0 :: rest)) (s0 :: rest))) =
            (keptCount (s0 :: rest) L * 4) ::
              List.map (fun l => (maskLine (s0 :: rest) l).length * 4) rest := by
          simp only [List.map_map, List.map_cons, Function.comp]
          rw [hlenmask]
          congr 1
        rw [hfst, hsnd]
        have hfold : (List.map (fun l => (maskLine (s0 :: rest) l).length * 4)
            rest).foldl Nat.min (keptCount (s0 :: rest) L * 4) =
            keptCount (s0 :: rest) L * 4 := by
          apply foldl_min_const
          intro x hx
          rcases List.mem_map.mp hx with ⟨l, hl, rfl⟩
          rw [maskLine_length, hlen l (List.mem_cons_of_mem _ hl)]
        rw [show (match (keptCount (s0 :: rest) L * 4) ::
            List.map (fun l => (maskLine (s0 :: rest) l).length * 4) rest with
          | [] => 0
          | s :: rest' => List.foldl Nat.min s rest') =
            keptCount (s0 :: rest) L * 4 from hfold]
        rw [Nat.mul_comm, List.map_cons]

/-- Witness for C5 at a concrete trace, config and inverse permutation. -/
theorem buildHighlightSelectors_spec_witness :
    buildHighlightSelectors [[0], [2]]
        { blockSize := 4, numberOfRounds := 2, sBox := { size := 2, table := [] },
          pBox := [1, 0, 3, 2], applyFinalPermutation := false, rounds := none,
          connectionStyles := [] } [1, 0, 3, 2] =
      highlightKeysSpec [[0], [2]] 4 2 [1, 0, 3, 2] :=
  buildHighlightSelectors_spec [[0], [2]]
    { blockSize := 4, numberOfRounds := 2, sBox := { size := 2, table := [] },
      pBox := [1, 0, 3, 2], applyFinalPermutation := false, rounds := none,
      connectionStyles := [] } [1, 0, 3, 2] (by decide)

/-- Witness for C7 at the concrete permutation `[1, 0, 3, 2]`. -/
theorem invertPermutation_involution_witness :
    ∃ q, invertPermutation [1, 0, 3, 2] = .ok q ∧ invertPermutation q = .ok [1, 0, 3, 2] ∧
      ∀ a : List Int, a.length = 4 →
        applyPermutation (applyPermutation a [1, 0, 3, 2]) q = a :=
  invertPermutation_involution [1, 0, 3, 2] 4 (by unfold IsPermOn; decide)

/-- Witness for C8 at a concrete two-line trace with one masked column. -/
theorem extractHighlights_masking_witness :
    (keptCount [['1', 'x'], ['0', '0']] 2 = 0 →
      ∃ e, extractHighlights [['1', 'x'], ['0', '0']] false = .error e) ∧
    (keptCount [['1', 'x'], ['0', '0']] 2 ≠ 0 →
      extractHighlights [['1', 'x'], ['0', '0']] false =
        .ok ([['1', 'x'], ['0', '0']].map
            (fun l => specDecodeLine (maskLine [['1', 'x'], ['0', '0']] l) false),
          4 * keptCount [['1', 'x'], ['0', '0']] 2)) :=
  extractHighlights_masking [['1', 'x'], ['0', '0']] false 2 (by decide) (by decide)
    (by decide)
